import Mathlib

/-!
# Verification of the Prisma Access DLP configuration sync engine

Shallow embedding of `src/sync.py` (class `PrismaAccessSync`): the data model
(JSON-like entity values and Python-dict operations), the normalizer
(`_normalize_pattern`), the reference rewriters (`_remap_pattern_ids`,
`_remap_expression_tree`, `_remap_profile_ids`), the identity-map builders,
the differ/classifier (`compare_patterns`), and the two-phase multi-destination
orchestrator (`sync`) modelled over an abstract entity store that records the
trace of remote calls.
-/

namespace DlpSync

/-- JSON-like values, the payloads of Prisma Access entities. Python `None`,
booleans, numbers, strings, lists and dicts; a dict is its ordered list of
key/value entries (Python dicts preserve insertion order). -/
inductive Val where
  | vnull : Val
  | vbool (b : Bool) : Val
  | vint (n : Int) : Val
  | vstr (s : String) : Val
  | vlist (xs : List Val) : Val
  | vdict (es : List (String × Val)) : Val
  deriving Repr

/-- An entity (pattern or profile) as fetched from the API: a JSON object,
i.e. the entry list of its top-level dict. -/
abbrev Obj := List (String × Val)

/-- Injective encoding of an `Int` into `Nat`. -/
def encInt : Int → Nat
  | .ofNat m => 2 * m
  | .negSucc m => 2 * m + 1

/-- Injective encoding of a character list into `Nat`. -/
def encChars : List Char → Nat
  | [] => 0
  | c :: cs => Nat.pair c.toNat (encChars cs) + 1

/-- Injective encoding of a `String` into `Nat`. -/
def encStr (s : String) : Nat := encChars s.data

mutual
/-- Injective encoding of a `Val` into `Nat`, used as a canonical sort key. -/
def encodeVal : Val → Nat
  | .vnull => Nat.pair 0 0
  | .vbool b => Nat.pair 1 (cond b 1 0)
  | .vint n => Nat.pair 2 (encInt n)
  | .vstr s => Nat.pair 3 (encStr s)
  | .vlist xs => Nat.pair 4 (encodeL xs)
  | .vdict es => Nat.pair 5 (encodeD es)

/-- Encoding of a list of values. -/
def encodeL : List Val → Nat
  | [] => 0
  | x :: xs => Nat.pair (encodeVal x) (encodeL xs) + 1

/-- Encoding of a list of dict entries. -/
def encodeD : List (String × Val) → Nat
  | [] => 0
  | (k, v) :: es => Nat.pair (Nat.pair (encStr k) (encodeVal v)) (encodeD es) + 1
end

theorem encInt_inj {a b : Int} (h : encInt a = encInt b) : a = b := by
  cases a <;> cases b <;> simp only [encInt] at h
  · exact congrArg Int.ofNat (by omega)
  · exact absurd h (by omega)
  · exact absurd h (by omega)
  · exact congrArg Int.negSucc (by omega)

theorem char_toNat_inj {a b : Char} (h : a.toNat = b.toNat) : a = b := by
  have := congrArg Char.ofNat h
  simpa [Char.ofNat_toNat] using this

theorem encChars_inj : ∀ {a b : List Char}, encChars a = encChars b → a = b := by
  intro a
  induction a with
  | nil => intro b h; cases b with
    | nil => rfl
    | cons c cs => simp [encChars] at h
  | cons c cs ih =>
    intro b h
    cases b with
    | nil => simp [encChars] at h
    | cons d ds =>
      simp only [encChars, Nat.add_right_cancel_iff] at h
      rw [Nat.pair_eq_pair] at h
      exact congrArg₂ List.cons (char_toNat_inj h.1) (ih h.2)

theorem encStr_inj {s t : String} (h : encStr s = encStr t) : s = t :=
  String.ext (encChars_inj h)

theorem encode_inj_aux (n : Nat) :
    (∀ a b : Val, sizeOf a ≤ n → encodeVal a = encodeVal b → a = b) ∧
    (∀ xs ys : List Val, sizeOf xs ≤ n → encodeL xs = encodeL ys → xs = ys) ∧
    (∀ es fs : List (String × Val), sizeOf es ≤ n → encodeD es = encodeD fs → es = fs) := by
  induction n using Nat.strong_induction_on with
  | _ n ih =>
    refine ⟨?_, ?_, ?_⟩
    · intro a b hs h
      cases a <;> cases b <;>
        simp only [encodeVal, Nat.pair_eq_pair] at h <;> try omega
      · rfl
      · rename_i x y
        cases x <;> cases y <;> simp_all
      · rename_i x y
        exact congrArg Val.vint (encInt_inj h.2)
      · rename_i x y
        exact congrArg Val.vstr (encStr_inj h.2)
      · rename_i xs ys
        have hlt : sizeOf xs < n := by
          have : sizeOf (Val.vlist xs) = 1 + sizeOf xs := by simp
          omega
        exact congrArg Val.vlist ((ih (sizeOf xs) hlt).2.1 xs ys le_rfl h.2)
      · rename_i es fs
        have hlt : sizeOf es < n := by
          have : sizeOf (Val.vdict es) = 1 + sizeOf es := by simp
          omega
        exact congrArg Val.vdict ((ih (sizeOf es) hlt).2.2 es fs le_rfl h.2)
    · intro xs ys hs h
      cases xs with
      | nil => cases ys with
        | nil => rfl
        | cons y ys => simp [encodeL] at h
      | cons x xs =>
        cases ys with
        | nil => simp [encodeL] at h
        | cons y ys =>
          simp only [encodeL, Nat.add_right_cancel_iff] at h
          rw [Nat.pair_eq_pair] at h
          have hx : sizeOf x < n := by
            have : sizeOf (x :: xs) = 1 + sizeOf x + sizeOf xs := by simp
            omega
          have hxs : sizeOf xs < n := by
            have : sizeOf (x :: xs) = 1 + sizeOf x + sizeOf xs := by simp
            omega
          exact congrArg₂ List.cons ((ih (sizeOf x) hx).1 x y le_rfl h.1)
            ((ih (sizeOf xs) hxs).2.1 xs ys le_rfl h.2)
    · intro es fs hs h
      cases es with
      | nil => cases fs with
        | nil => rfl
        | cons f fs => simp [encodeD] at h
      | cons e es =>
        cases fs with
        | nil => simp [encodeD] at h
        | cons f fs =>
          obtain ⟨k, v⟩ := e
          obtain ⟨k2, v2⟩ := f
          simp only [encodeD, Nat.add_right_cancel_iff] at h
          rw [Nat.pair_eq_pair, Nat.pair_eq_pair] at h
          have hv : sizeOf v < n := by
            have : sizeOf ((k, v) :: es) = 1 + (1 + sizeOf k + sizeOf v) + sizeOf es := by
              simp
            omega
          have hes : sizeOf es < n := by
            have : sizeOf ((k, v) :: es) = 1 + (1 + sizeOf k + sizeOf v) + sizeOf es := by
              simp
            omega
          have hk : k = k2 := encStr_inj h.1.1
          have hv2 : v = v2 := (ih (sizeOf v) hv).1 v v2 le_rfl h.1.2
          have htail : es = fs := (ih (sizeOf es) hes).2.2 es fs le_rfl h.2
          simp [hk, hv2, htail]

theorem encodeVal_inj {a b : Val} (h : encodeVal a = encodeVal b) : a = b :=
  (encode_inj_aux (sizeOf a)).1 a b le_rfl h

instance : DecidableEq Val := fun a b =>
  decidable_of_iff (encodeVal a = encodeVal b) ⟨encodeVal_inj, fun h => h ▸ rfl⟩

/-! ## Python dict operations -/

/-- Python dict assignment `d[k] = v` on an insertion-ordered dict: replace the
value at an existing key in place, else append a new entry. -/
def upsert {κ ν : Type} [BEq κ] : List (κ × ν) → κ → ν → List (κ × ν)
  | [], k, v => [(k, v)]
  | (k0, v0) :: rest, k, v =>
    if k0 == k then (k0, v) :: rest else (k0, v0) :: upsert rest k v

/-- Python dict lookup `d[k]` / key membership `k in d`: the value at the first
(for a real dict, only) entry with that key. -/
def lookupPairs {κ ν : Type} [BEq κ] (m : List (κ × ν)) (k : κ) : Option ν :=
  (m.find? (fun kv => kv.1 == k)).map (fun kv => kv.2)

/-- Python `d.get(k)` on a JSON object: the stored value, or `None` when the
key is absent. -/
def pyGet (o : Obj) (k : String) : Val :=
  (lookupPairs o k).getD .vnull

/-- In-place update of one key of a JSON object (`o[k] = v`). -/
def setKey (o : Obj) (k : String) (v : Val) : Obj :=
  upsert o k v

/-- Python truthiness of a JSON value (`if x:`). -/
def Val.truthy : Val → Bool
  | .vnull => false
  | .vbool b => b
  | .vint n => !(n == 0)
  | .vstr s => !(s == "")
  | .vlist xs => !xs.isEmpty
  | .vdict es => !es.isEmpty

/-- `{p['name']: p for p in l}`: a Python dict comprehension keyed by name;
later entries overwrite earlier ones, keys keep first-insertion order. -/
def dictByName (l : List Obj) : List (Val × Obj) :=
  l.foldl (fun m p => upsert m (pyGet p "name") p) []

/-! ## Normalizer (`_normalize_pattern`) -/

/-- `METADATA_FIELDS`: the metadata keys excluded from comparison and writes. -/
def METADATA_FIELDS : List String :=
  ["id", "created_at", "created_by", "updated_at",
   "updated_by", "version", "tenant", "tenant_id"]

/-- `_normalize_pattern`: `{k: v for k, v in pattern.items() if k not in
METADATA_FIELDS}`. -/
def normalize_pattern (pattern : Obj) : Obj :=
  pattern.filter (fun kv => !(METADATA_FIELDS.contains kv.1))

/-! ## Reference rewriter (`_remap_pattern_ids`, `_remap_expression_tree`,
`_remap_profile_ids`)

The Python functions deep-copy their argument and then update the copy in
place; each Lean function below returns the final value of the object the
Python code mutates. Guards iterate only list values and index only dict
values: a truthy value of any other shape at those positions is outside the
JSON entity schema (the Python code would raise there) and is left unchanged. -/

/-- Body of the `rule_items` loop (sync.py lines 160-162): if
`rule_item.get('id') in pattern_id_mapping` then
`rule_item['id'] = pattern_id_mapping[rule_item['id']]`. -/
def remapRuleItemId (m : List (Val × Val)) : Val → Val
  | .vdict es =>
    match lookupPairs m (pyGet es "id") with
    | some nid => .vdict (setKey es "id" nid)
    | none => .vdict es
  | v => v

/-- Body of the `conditions` loop (lines 158-162): if
`condition.get('rule_items')` is truthy, remap each rule item in place. -/
def remapCondition (m : List (Val × Val)) : Val → Val
  | .vdict es =>
    let ri := pyGet es "rule_items"
    if ri.truthy then
      match ri with
      | .vlist xs => .vdict (setKey es "rule_items" (.vlist (xs.map (remapRuleItemId m))))
      | _ => .vdict es
    else .vdict es
  | v => v

/-- Body of the `advance_data_patterns_rules` loop (lines 156-162). -/
def remapAdvRule (m : List (Val × Val)) : Val → Val
  | .vdict es =>
    let cs := pyGet es "conditions"
    if cs.truthy then
      match cs with
      | .vlist xs => .vdict (setKey es "conditions" (.vlist (xs.map (remapCondition m))))
      | _ => .vdict es
    else .vdict es
  | v => v

theorem sizeOf_obj_pos (es : Obj) : 0 < sizeOf es := by
  cases es <;> simp_arith

theorem sizeOf_lookupPairs_lt (es : Obj) (k : String) :
    ∀ v, lookupPairs es k = some v → sizeOf v < sizeOf es := by
  intro v h
  unfold lookupPairs at h
  match hf : es.find? (fun kv => kv.1 == k) with
  | none => rw [hf] at h; simp at h
  | some kv =>
    rw [hf] at h
    simp only [Option.map_some', Option.some.injEq] at h
    have hmem := List.mem_of_find?_eq_some hf
    have hlt := List.sizeOf_lt_of_mem hmem
    cases kv with
    | mk k1 v1 =>
      simp only at h
      subst h
      simp only [Prod.mk.sizeOf_spec] at hlt
      omega

theorem sizeOf_pyGet_lt (es : Obj) (k : String) :
    sizeOf (pyGet es k) < 1 + sizeOf es := by
  unfold pyGet
  have hpos := sizeOf_obj_pos es
  match h : lookupPairs es k with
  | none => simp [Option.getD]; omega
  | some v =>
    have := sizeOf_lookupPairs_lt es k v h
    simp [Option.getD]
    omega

mutual
/-- `_remap_expression_tree`: rewrites `tree['rule_item']['id']` when mapped,
then recurses into every element of a truthy `tree['sub_expressions']` list.
Returns the post-mutation value of `tree`. `sub_expressions` is read up front:
the preceding in-place `rule_item` update cannot change it (distinct key). -/
def remapExpressionTree (m : List (Val × Val)) : Val → Val
  | .vdict es =>
    let subs := pyGet es "sub_expressions"
    let ri := pyGet es "rule_item"
    let es1 :=
      if ri.truthy then
        match ri with
        | .vdict ries =>
          match lookupPairs m (pyGet ries "id") with
          | some nid => setKey es "rule_item" (.vdict (setKey ries "id" nid))
          | none => es
        | _ => es
      else es
    if subs.truthy then
      match h : subs with
      | .vlist xs => .vdict (setKey es1 "sub_expressions" (.vlist (remapTreeList m xs)))
      | _ => .vdict es1
    else .vdict es1
  | v => v
termination_by v => sizeOf v
decreasing_by
  simp_wf
  have h1 : sizeOf subs < 1 + sizeOf es :=
    sizeOf_pyGet_lt es "sub_expressions"
  rw [h] at h1
  simp at h1
  omega

/-- The `sub_expressions` loop of `_remap_expression_tree`. -/
def remapTreeList (m : List (Val × Val)) : List Val → List Val
  | [] => []
  | t :: ts => remapExpressionTree m t :: remapTreeList m ts
termination_by l => sizeOf l
decreasing_by
  all_goals simp_wf <;> omega
end

/-- Body of the `detection_rules` loop of `_remap_pattern_ids` (lines
166-168): remap the expression tree in place when truthy. -/
def remapDetRule (m : List (Val × Val)) : Val → Val
  | .vdict es =>
    let t := pyGet es "expression_tree"
    if t.truthy then .vdict (setKey es "expression_tree" (remapExpressionTree m t))
    else .vdict es
  | v => v

/-- `_remap_pattern_ids` minus the initial deepcopy: the final value of the
(copied) profile after both in-place rewriting passes. -/
def remap_pattern_ids (profile : Obj) (m : List (Val × Val)) : Obj :=
  let adv := pyGet profile "advance_data_patterns_rules"
  let p1 :=
    if adv.truthy then
      match adv with
      | .vlist rules =>
        setKey profile "advance_data_patterns_rules" (.vlist (rules.map (remapAdvRule m)))
      | _ => profile
    else profile
  let dr := pyGet p1 "detection_rules"
  if dr.truthy then
    match dr with
    | .vlist drs => setKey p1 "detection_rules" (.vlist (drs.map (remapDetRule m)))
    | _ => p1
  else p1

/-- Body of the `detection_rules` loop of `_remap_profile_ids` (lines
245-253): for a rule whose `rule_type` is `multi_profile`, rewrite
`multi_profile['data_profile_ids']` element-wise via
`profile_id_mapping.get(profile_id, profile_id)`. -/
def remapProfileDetRule (m : List (Val × Val)) : Val → Val
  | .vdict es =>
    if pyGet es "rule_type" == .vstr "multi_profile" then
      match pyGet es "multi_profile" with
      | .vdict mpes =>
        if (Val.vdict mpes).truthy && (pyGet mpes "data_profile_ids").truthy then
          match pyGet mpes "data_profile_ids" with
          | .vlist ids =>
            .vdict (setKey es "multi_profile" (.vdict (setKey mpes "data_profile_ids"
              (.vlist (ids.map (fun i => (lookupPairs m i).getD i))))))
          | _ => .vdict es
        else .vdict es
      | _ => .vdict es
    else .vdict es
  | v => v

/-- `_remap_profile_ids` minus the initial deepcopy. -/
def remap_profile_ids (profile : Obj) (m : List (Val × Val)) : Obj :=
  let dr := pyGet profile "detection_rules"
  if dr.truthy then
    match dr with
    | .vlist drs => setKey profile "detection_rules" (.vlist (drs.map (remapProfileDetRule m)))
    | _ => profile
  else profile

/-- Value of `copy.deepcopy(x)`: a fresh object graph, structurally identical
to `x` and sharing no substructure with it. -/
def deepcopy (o : Obj) : Obj := o

/-- The full call `_remap_pattern_ids(profile, mapping)` as the caller observes
it. The function body first rebinds its local name to `copy.deepcopy(profile)`
(line 152) and applies every in-place update to that copy, so the caller's
argument object receives no writes. The pair is `(returned profile, value of
the caller's argument after the call)`; without the deepcopy the in-place
updates would alias the argument and the second component would be
`remap_pattern_ids profile m` instead of `profile`. -/
def remap_pattern_ids_call (profile : Obj) (m : List (Val × Val)) : Obj × Obj :=
  (remap_pattern_ids (deepcopy profile) m, profile)

/-- The full call `_remap_profile_ids(profile, mapping)` as the caller observes
it (deepcopy at line 241); same reading as `remap_pattern_ids_call`. -/
def remap_profile_ids_call (profile : Obj) (m : List (Val × Val)) : Obj × Obj :=
  (remap_profile_ids (deepcopy profile) m, profile)

/-- `_build_pattern_id_mapping` / `_build_profile_id_mapping` (the two bodies
are identical): index destination entities by name, then for each source
entity whose name appears there, record `source_id -> destination_id`. -/
def build_id_mapping (src dst : List Obj) : List (Val × Val) :=
  let dest_by_name : List (Val × Val) :=
    dst.foldl (fun m p => upsert m (pyGet p "name") (pyGet p "id")) []
  src.foldl (fun m p =>
    match lookupPairs dest_by_name (pyGet p "name") with
    | some did => upsert m (pyGet p "id") did
    | none => m) []

/-! ## Differ (`DeepDiff(source_norm, dest_norm, ignore_order=True,
exclude_regex_paths=r".*\['supported_confidence_levels'\]")`)

`DeepDiff` is an external library, not code of this repository. Its use here
is modelled from the spec: "deep structural equality over mappings/sequences/
scalars, with sequences compared order-insensitively (as multisets of
elements)" and "one specific field path (a 'supported confidence levels' list
appearing anywhere inside rule items) excluded entirely from comparison
regardless of value"; the regex excludes every path passing through a
`supported_confidence_levels` dict key at any depth. Following the spec's
design note, the order-insensitive comparison is implemented by
canonicalization: strip excluded keys, canonicalize children, then sort
sequence elements (and dict entries, since mappings compare without regard to
entry order) by an injective key. The diff is empty iff the canonical forms
are equal. -/

/-- The dict key excluded from comparison at every depth. -/
def excludedKey : String := "supported_confidence_levels"

/-- Sort values by their injective `Nat` encoding. -/
def sortByEnc (xs : List Val) : List Val :=
  xs.mergeSort (fun a b => Nat.ble (encodeVal a) (encodeVal b))

/-- Injective sort key for a dict entry. -/
def entryKey (e : String × Val) : Nat := Nat.pair (encStr e.1) (encodeVal e.2)

/-- Sort dict entries by their injective key. -/
def sortEntries (es : List (String × Val)) : List (String × Val) :=
  es.mergeSort (fun a b => Nat.ble (entryKey a) (entryKey b))

mutual
/-- Canonical form of a value under the comparison options: excluded keys
removed, list elements and dict entries in canonical order. -/
def canon : Val → Val
  | .vlist xs => .vlist (sortByEnc (canonL xs))
  | .vdict es => .vdict (sortEntries (canonD es))
  | v => v

/-- Canonical forms of a list of values. -/
def canonL : List Val → List Val
  | [] => []
  | x :: xs => canon x :: canonL xs

/-- Canonical forms of dict entries, dropping excluded keys. -/
def canonD : List (String × Val) → List (String × Val)
  | [] => []
  | (k, v) :: es =>
    if k == excludedKey then canonD es else (k, canon v) :: canonD es
end

/-- `DeepDiff(a, b, ignore_order=True, exclude_regex_paths=...)` produced an
empty diff. -/
def deepDiffEmpty (a b : Val) : Bool := canon a == canon b

/-! ## Classifier (`compare_patterns`) -/

/-- One iteration of the `for name, source_pattern in source_dict.items()`
loop of `compare_patterns` (lines 278-314): the (at most one-element) additions
it makes to the three result lists. A `to_update` item is the Python dict
`{'source': ..., 'destination': ..., 'diff': ...}`, modelled as the
`(source, destination)` pair; the `diff` member is the opaque DeepDiff report,
produced for display only and never re-consumed. The optional mappings are
applied to the normalized source copy only when truthy (a `None` or empty dict
skips the rewrite, matching `if pattern_id_mapping:`). -/
def classifySrcNorm (pm fm : Option (List (Val × Val))) (sp : Obj) : Obj :=
  let sn0 := normalize_pattern sp
  let sn1 :=
    match pm with
    | some m => if m.isEmpty then sn0 else remap_pattern_ids (deepcopy sn0) m
    | none => sn0
  match fm with
  | some m => if m.isEmpty then sn1 else remap_profile_ids (deepcopy sn1) m
  | none => sn1

/-- See `classifyLoop`. -/
def classifyOne (dest_dict : List (Val × Obj))
    (pm fm : Option (List (Val × Val))) (name : Val) (sp : Obj) :
    List Obj × List (Obj × Obj) × List Obj :=
  match lookupPairs dest_dict name with
  | none => ([sp], [], [])
  | some dp =>
    if deepDiffEmpty (.vdict (classifySrcNorm pm fm sp)) (.vdict (normalize_pattern dp))
    then ([], [], [sp])
    else ([], [(sp, dp)], [])

/-- The classification loop over the entries of `source_dict`, in iteration
order; each iteration appends its `classifyOne` additions. -/
def classifyLoop (dest_dict : List (Val × Obj))
    (pm fm : Option (List (Val × Val))) :
    List (Val × Obj) → List Obj × List (Obj × Obj) × List Obj
  | [] => ([], [], [])
  | (name, sp) :: rest =>
    let hd := classifyOne dest_dict pm fm name sp
    let (tc, tu, idn) := classifyLoop dest_dict pm fm rest
    (hd.1 ++ tc, hd.2.1 ++ tu, hd.2.2 ++ idn)

/-- `compare_patterns(source_patterns, dest_patterns, pattern_id_mapping,
profile_id_mapping)`: index both lists by name, then classify every source
entity as to-create / to-update / identical. -/
def compare_patterns (source_patterns dest_patterns : List Obj)
    (pattern_id_mapping profile_id_mapping : Option (List (Val × Val))) :
    List Obj × List (Obj × Obj) × List Obj :=
  classifyLoop (dictByName dest_patterns) pattern_id_mapping profile_id_mapping
    (dictByName source_patterns)

/-! ## Entity store and orchestrator (`sync`)

The HTTP transport is out of scope (spec §1/§6); it is modelled as an abstract
entity store answering each call with either a payload (HTTP 200) or an error
message (any other status, which the Python methods turn into a raised
exception). Every function below additionally returns the list of remote
calls it issued, so call-counting properties (dry-run, fetch-once) are facts
about the returned trace. The store is a pure function of the call, which
suffices for the claims considered here. -/

/-- A remote call. The listing endpoints take no `custom_only` argument:
that filter is applied client-side by `get_data_patterns` /
`get_data_profiles`. -/
inductive Call where
  | getPat (token : String)
  | getProf (token : String)
  | createPat (token : String) (body : Obj)
  | updatePat (token : String) (pid : Val) (body : Obj)
  | createProf (token : String) (body : Obj)
  | updateProf (token : String) (pid : Val) (body : Obj)
  deriving DecidableEq, Repr

/-- The remote service: `fetch` answers listing calls, `push` answers
create/update calls. -/
structure World where
  fetch : Call → Except String (List Obj)
  push : Call → Except String Obj

/-- A create or update call (the calls forbidden in dry-run mode). -/
def isMutatingCall : Call → Bool
  | .getPat _ => false
  | .getProf _ => false
  | _ => true

/-- The client-side custom filter of `get_data_patterns`:
`type != "predefined"`. -/
def customPatterns (ps : List Obj) : List Obj :=
  ps.filter (fun p => !(pyGet p "type" == .vstr "predefined"))

/-- The client-side custom filter of `get_data_profiles`:
`profile_type == "custom"`. -/
def customProfiles (ps : List Obj) : List Obj :=
  ps.filter (fun p => pyGet p "profile_type" == .vstr "custom")

/-- `get_data_patterns(token, custom_only)`: one GET of the pattern list,
then the client-side custom filter when `custom_only`. -/
def get_data_patterns (w : World) (token : String) (custom_only : Bool) :
    Except String (List Obj) × List Call :=
  (match w.fetch (.getPat token) with
   | .error m => .error m
   | .ok ps => .ok (if custom_only then customPatterns ps else ps),
   [.getPat token])

/-- `get_data_profiles(token, custom_only)`: one GET of the profile list,
then the client-side custom filter when `custom_only`. -/
def get_data_profiles (w : World) (token : String) (custom_only : Bool) :
    Except String (List Obj) × List Call :=
  (match w.fetch (.getProf token) with
   | .error m => .error m
   | .ok ps => .ok (if custom_only then customProfiles ps else ps),
   [.getProf token])

/-- `create_pattern`: normalize, then POST the clean body. -/
def create_pattern (w : World) (pattern : Obj) (token : String) :
    Except String Obj × List Call :=
  let clean := normalize_pattern pattern
  (w.push (.createPat token clean), [.createPat token clean])

/-- `update_pattern`: normalize, then PUT the clean body at the given id. -/
def update_pattern (w : World) (pid : Val) (pattern : Obj) (token : String) :
    Except String Obj × List Call :=
  let clean := normalize_pattern pattern
  (w.push (.updatePat token pid clean), [.updatePat token pid clean])

/-- The body both `create_profile` and `update_profile` send: normalize,
remap pattern ids (unconditionally), remap profile ids when that mapping is
truthy. -/
def profile_push_body (pm : List (Val × Val)) (fm : Option (List (Val × Val)))
    (profile : Obj) : Obj :=
  let clean0 := normalize_pattern profile
  let clean1 := remap_pattern_ids (deepcopy clean0) pm
  match fm with
  | some m => if m.isEmpty then clean1 else remap_profile_ids (deepcopy clean1) m
  | none => clean1

/-- `create_profile`: prepare the body, then POST. The call records the clean
profile; the `{"dataProfile": ...}` envelope is a fixed wrapper on the wire. -/
def create_profile (w : World) (profile : Obj) (token : String)
    (pm : List (Val × Val)) (fm : Option (List (Val × Val))) :
    Except String Obj × List Call :=
  (w.push (.createProf token (profile_push_body pm fm profile)),
   [.createProf token (profile_push_body pm fm profile)])

/-- `update_profile`: same preparation as `create_profile`, PUT at the id. -/
def update_profile (w : World) (pid : Val) (profile : Obj) (token : String)
    (pm : List (Val × Val)) (fm : Option (List (Val × Val))) :
    Except String Obj × List Call :=
  (w.push (.updateProf token pid (profile_push_body pm fm profile)),
   [.updateProf token pid (profile_push_body pm fm profile)])

/-- The pattern create loop (sync.py lines 528-538): one try/except per item.
On failure Python formats `"Error creating {name}: {msg}"` into the errors
list; modelled as the `(name, message)` pair. -/
def applyCreatePatterns (w : World) (token : String) :
    List Obj → (List Val × List (Val × String)) × List Call
  | [] => (([], []), [])
  | p :: rest =>
    let c := create_pattern w p token
    let (res, tr) := applyCreatePatterns w token rest
    match c.1 with
    | .ok _ => ((pyGet p "name" :: res.1, res.2), c.2 ++ tr)
    | .error m => ((res.1, (pyGet p "name", m) :: res.2), c.2 ++ tr)

/-- The pattern update loop (lines 541-552): updates the destination's
existing id with the source body; per-item try/except. -/
def applyUpdatePatterns (w : World) (token : String) :
    List (Obj × Obj) → (List Val × List (Val × String)) × List Call
  | [] => (([], []), [])
  | (s, d) :: rest =>
    let c := update_pattern w (pyGet d "id") s token
    let (res, tr) := applyUpdatePatterns w token rest
    match c.1 with
    | .ok _ => ((pyGet s "name" :: res.1, res.2), c.2 ++ tr)
    | .error m => ((res.1, (pyGet s "name", m) :: res.2), c.2 ++ tr)

/-- The profile create loop (lines 615-625). -/
def applyCreateProfiles (w : World) (token : String) (pm : List (Val × Val))
    (fm : Option (List (Val × Val))) :
    List Obj → (List Val × List (Val × String)) × List Call
  | [] => (([], []), [])
  | p :: rest =>
    let c := create_profile w p token pm fm
    let (res, tr) := applyCreateProfiles w token pm fm rest
    match c.1 with
    | .ok _ => ((pyGet p "name" :: res.1, res.2), c.2 ++ tr)
    | .error m => ((res.1, (pyGet p "name", m) :: res.2), c.2 ++ tr)

/-- The profile update loop (lines 628-639). -/
def applyUpdateProfiles (w : World) (token : String) (pm : List (Val × Val))
    (fm : Option (List (Val × Val))) :
    List (Obj × Obj) → (List Val × List (Val × String)) × List Call
  | [] => (([], []), [])
  | (s, d) :: rest =>
    let c := update_profile w (pyGet d "id") s token pm fm
    let (res, tr) := applyUpdateProfiles w token pm fm rest
    match c.1 with
    | .ok _ => ((pyGet s "name" :: res.1, res.2), c.2 ++ tr)
    | .error m => ((res.1, (pyGet s "name", m) :: res.2), c.2 ++ tr)

/-- One phase of a per-destination report (lines 485-502): the three
classification counts plus the created/updated/errors lists filled by the
apply phase. -/
structure PhaseReport where
  to_create : Nat
  to_update : Nat
  identical : Nat
  created : List Val
  updated : List Val
  errors : List (Val × String)
  deriving DecidableEq, Repr

/-- A destination's report: the patterns phase and the profiles phase. -/
structure TenantReport where
  patterns : PhaseReport
  profiles : PhaseReport
  deriving DecidableEq, Repr

/-- What `global_report['tenants']` records per destination: the report, or
`{'error': str(e)}` from the per-destination except branch (lines 647-651). -/
inductive TenantEntry where
  | ok (r : TenantReport)
  | fail (msg : String)
  deriving DecidableEq, Repr

/-- A connected destination tenant (name and authenticated token). -/
structure Dest where
  name : String
  token : String
  deriving DecidableEq, Repr

/-- The aggregate report (lines 460-465). -/
structure GlobalReport where
  source_name : String
  source_patterns_count : Nat
  source_profiles_count : Nat
  tenants : List (String × TenantEntry)
  deriving DecidableEq, Repr

/-- Result of `sync`: a raised exception from the source fetches (which no
try/except guards), the `{}` returned when a truthy target filter matches
nothing (line 457), or the aggregate report. -/
inductive SyncOutcome where
  | fatal (msg : String)
  | empty
  | report (g : GlobalReport)
  deriving DecidableEq, Repr

/-- Lines 452-457: `tenants_to_sync` selection. `if target_tenants:` is
Python truthiness, so `None` and the empty list both mean all destinations; a
truthy filter matching nothing returns `{}` (modelled as `none`). -/
def selectTenants (destinations : List Dest)
    (target_tenants : Option (List String)) : Option (List Dest) :=
  match target_tenants with
  | none => some destinations
  | some names =>
    if names.isEmpty then some destinations
    else
      let f := destinations.filter (fun d => names.contains d.name)
      if f.isEmpty then none else some f

/-- The body of the per-destination loop (lines 468-651), from the fetch of
the destination's custom patterns to the recorded tenant entry. Any fetch
error takes the per-destination except branch and yields `.fail`; create and
update errors are caught per item inside the apply-loop functions. -/
def syncDest (w : World) (source_token : String)
    (source_patterns source_profiles : List Obj) (dry_run : Bool) (d : Dest) :
    TenantEntry × List Call :=
  match get_data_patterns w d.token true with
  | (.error m, tr1) => (.fail m, tr1)
  | (.ok dest_patterns, tr1) =>
    let cls := compare_patterns source_patterns dest_patterns none none
    let patRep0 : PhaseReport :=
      ⟨cls.1.length, cls.2.1.length, cls.2.2.length, [], [], []⟩
    let afterApply : (PhaseReport × List Call) ⊕ (String × List Call) :=
      if dry_run then .inl (patRep0, [])
      else
        let (cres, trc) := applyCreatePatterns w d.token cls.1
        let (ures, tru) := applyUpdatePatterns w d.token cls.2.1
        let rep1 := { patRep0 with
          created := cres.1, updated := ures.1, errors := cres.2 ++ ures.2 }
        match get_data_patterns w d.token true with
        | (.error m, trr) => .inr (m, trc ++ tru ++ trr)
        | (.ok _, trr) => .inl (rep1, trc ++ tru ++ trr)
    match afterApply with
    | .inr (m, tr2) => (.fail m, tr1 ++ tr2)
    | .inl (patRep, tr2) =>
      match get_data_patterns w source_token false with
      | (.error m, tr3) => (.fail m, tr1 ++ tr2 ++ tr3)
      | (.ok all_source_patterns, tr3) =>
        match get_data_patterns w d.token false with
        | (.error m, tr4) => (.fail m, tr1 ++ tr2 ++ tr3 ++ tr4)
        | (.ok all_dest_patterns, tr4) =>
          let pattern_id_mapping := build_id_mapping all_source_patterns all_dest_patterns
          match get_data_profiles w d.token true with
          | (.error m, tr5) => (.fail m, tr1 ++ tr2 ++ tr3 ++ tr4 ++ tr5)
          | (.ok dest_profiles, tr5) =>
            let profile_id_mapping := build_id_mapping source_profiles dest_profiles
            let fcls := compare_patterns source_profiles dest_profiles
              (some pattern_id_mapping) (some profile_id_mapping)
            let profRep0 : PhaseReport :=
              ⟨fcls.1.length, fcls.2.1.length, fcls.2.2.length, [], [], []⟩
            let trPre := tr1 ++ tr2 ++ tr3 ++ tr4 ++ tr5
            if dry_run then (.ok ⟨patRep, profRep0⟩, trPre)
            else
              let (cres, trc) := applyCreateProfiles w d.token pattern_id_mapping
                (some profile_id_mapping) fcls.1
              let (ures, tru) := applyUpdateProfiles w d.token pattern_id_mapping
                (some profile_id_mapping) fcls.2.1
              let profRep := { profRep0 with
                created := cres.1, updated := ures.1, errors := cres.2 ++ ures.2 }
              (.ok ⟨patRep, profRep⟩, trPre ++ trc ++ tru)

/-- The per-destination loop over the selected tenants, with the trace of all
calls issued, in order. -/
def syncLoop (w : World) (source_token : String)
    (source_patterns source_profiles : List Obj) (dry_run : Bool) :
    List Dest → List (String × TenantEntry) × List Call
  | [] => ([], [])
  | d :: ds =>
    let (e, tr) := syncDest w source_token source_patterns source_profiles dry_run d
    let (rest, tr2) := syncLoop w source_token source_patterns source_profiles dry_run ds
    ((d.name, e) :: rest, tr ++ tr2)

/-- `global_report['tenants'][dest['name']] = entry` across the loop:
sequential dict assignment, i.e. a left fold of upserts over the
per-destination results. -/
def collectTenants (l : List (String × TenantEntry)) : List (String × TenantEntry) :=
  l.foldl (fun m q => upsert m q.1 q.2) []

/-- `sync(dry_run, target_tenants)` (lines 431-672): fetch the source's
custom patterns and profiles, select the destinations, run the
per-destination loop, aggregate. -/
def sync (w : World) (source_token : String) (source_name : String)
    (destinations : List Dest) (dry_run : Bool)
    (target_tenants : Option (List String)) : SyncOutcome × List Call :=
  match get_data_patterns w source_token true with
  | (.error m, tr1) => (.fatal m, tr1)
  | (.ok source_patterns, tr1) =>
    match get_data_profiles w source_token true with
    | (.error m, tr2) => (.fatal m, tr1 ++ tr2)
    | (.ok source_profiles, tr2) =>
      match selectTenants destinations target_tenants with
      | none => (.empty, tr1 ++ tr2)
      | some sel =>
        let (pairs, tr3) := syncLoop w source_token source_patterns source_profiles dry_run sel
        (.report ⟨source_name, source_patterns.length, source_profiles.length,
           collectTenants pairs⟩,
         tr1 ++ tr2 ++ tr3)

/-! ## Specification-side notions used to state the claims -/

/-- The last element of `l` whose `name` field is `n` — the occurrence a
Python dict comprehension keyed by name retains. -/
def lastWithName (n : Val) (l : List Obj) : Option Obj :=
  l.reverse.find? (fun p => pyGet p "name" == n)

/-- The spec-side relation "the two values differ only in the order of
elements inside list-valued fields, or only in the value of the excluded
`supported_confidence_levels` field (at any depth)": lists may be permuted
(elements matched up to the same relation), dict entries agree key-for-key
with related values except that values under the excluded key are
unconstrained. Defined independently of the canonicalization that models
DeepDiff. -/
inductive EquivMod : Val → Val → Prop where
  | refl (v : Val) : EquivMod v v
  | list (xs zs ys : List Val) (hlen : xs.length = zs.length)
      (hpt : ∀ p ∈ xs.zip zs, EquivMod p.1 p.2) (hperm : zs.Perm ys) :
      EquivMod (.vlist xs) (.vlist ys)
  | dict (es fs : List (String × Val)) (hlen : es.length = fs.length)
      (hkeys : ∀ q ∈ es.zip fs, q.1.1 = q.2.1)
      (hvals : ∀ q ∈ es.zip fs, q.1.1 ≠ excludedKey → EquivMod q.1.2 q.2.2) :
      EquivMod (.vdict es) (.vdict fs)

/-- An abstract expression tree of arbitrary nesting (spec §3
`ExpressionNode`): an optional `rule_item` (its `id` plus its other members),
the list of `sub_expressions`, and the node's other members (`operator`
etc.). A node without a rule item carries `"rule_item": null`, which the code
treats exactly like an absent key (`tree.get('rule_item')` is falsy either
way). -/
inductive ETree where
  | mk (ri : Option (Val × Obj)) (subs : List ETree) (rest : Obj)

mutual
/-- The JSON object a well-formed expression node denotes. -/
def encodeETree : ETree → Val
  | .mk ri subs rest =>
    .vdict ((match ri with
      | some q => ("rule_item", .vdict (("id", q.1) :: q.2))
      | none => ("rule_item", .vnull)) ::
        ("sub_expressions", .vlist (encodeETreeL subs)) :: rest)

/-- Encoding of a list of expression nodes. -/
def encodeETreeL : List ETree → List Val
  | [] => []
  | t :: ts => encodeETree t :: encodeETreeL ts
end

mutual
/-- The claim's specification of tree rewriting: every node's `rule_item.id`
is replaced by its mapped value when present in the map and kept otherwise;
shape, order and all other members are unchanged. -/
def mapETree (m : List (Val × Val)) : ETree → ETree
  | .mk ri subs rest =>
    .mk (ri.map fun q => ((lookupPairs m q.1).getD q.1, q.2)) (mapETreeL m subs) rest

/-- `mapETree` on a list of nodes. -/
def mapETreeL (m : List (Val × Val)) : List ETree → List ETree
  | [] => []
  | t :: ts => mapETree m t :: mapETreeL m ts
end

/-- An abstract `rule_items[]` element: its pattern-id reference plus its
other members. -/
structure ARuleItem where
  rid : Val
  rest : Obj

/-- The JSON object an abstract rule item denotes. -/
def encodeARuleItem (x : ARuleItem) : Val := .vdict (("id", x.rid) :: x.rest)

/-- The claim's id rewrite on a rule item. -/
def mapARuleItem (m : List (Val × Val)) (x : ARuleItem) : ARuleItem :=
  ⟨(lookupPairs m x.rid).getD x.rid, x.rest⟩

/-- An abstract `conditions[]` element. -/
structure ACond where
  items : List ARuleItem
  rest : Obj

/-- The JSON object an abstract condition denotes. -/
def encodeACond (c : ACond) : Val :=
  .vdict (("rule_items", .vlist (c.items.map encodeARuleItem)) :: c.rest)

/-- The claim's rewrite on a condition. -/
def mapACond (m : List (Val × Val)) (c : ACond) : ACond :=
  ⟨c.items.map (mapARuleItem m), c.rest⟩

/-- An abstract `advance_data_patterns_rules[]` element. -/
structure ARule where
  conds : List ACond
  rest : Obj

/-- The JSON object an abstract advance rule denotes. -/
def encodeARule (r : ARule) : Val :=
  .vdict (("conditions", .vlist (r.conds.map encodeACond)) :: r.rest)

/-- The claim's rewrite on an advance rule. -/
def mapARule (m : List (Val × Val)) (r : ARule) : ARule :=
  ⟨r.conds.map (mapACond m), r.rest⟩

/-- An abstract `detection_rules[]` element carrying an expression tree. -/
structure ADetRule where
  tree : ETree
  rest : Obj

/-- The JSON object an abstract detection rule denotes. -/
def encodeADetRule (r : ADetRule) : Val :=
  .vdict (("expression_tree", encodeETree r.tree) :: r.rest)

/-- The claim's rewrite on a detection rule. -/
def mapADetRule (m : List (Val × Val)) (r : ADetRule) : ADetRule :=
  ⟨mapETree m r.tree, r.rest⟩

/-- An abstract profile for the pattern-reference rewrite claim: its advance
rules, its detection rules and its other members. -/
structure PatProfile where
  arules : List ARule
  drules : List ADetRule
  rest : Obj

/-- The JSON object an abstract profile denotes. -/
def encodePatProfile (P : PatProfile) : Obj :=
  ("advance_data_patterns_rules", .vlist (P.arules.map encodeARule)) ::
    ("detection_rules", .vlist (P.drules.map encodeADetRule)) :: P.rest

/-- The claim's specification of `remapPatternRefs` on an abstract profile. -/
def mapPatProfile (m : List (Val × Val)) (P : PatProfile) : PatProfile :=
  ⟨P.arules.map (mapARule m), P.drules.map (mapADetRule m), P.rest⟩

/-- An abstract `multi_profile` detection rule for the profile-reference
rewrite claim: `ids` is `multi_profile.data_profile_ids`, `mpRest` the other
members of the `multi_profile` object, `rest` the rule's other members. -/
def multiProfileRule (ids : List Val) (mpRest rest : Obj) : Val :=
  .vdict (("rule_type", .vstr "multi_profile") ::
    ("multi_profile", .vdict (("data_profile_ids", .vlist ids) :: mpRest)) :: rest)

/-! ## General lemmas -/

theorem contains_iff_mem {l : List String} {a : String} :
    l.contains a = true ↔ a ∈ l := List.elem_iff

theorem mem_of_mem_normalize {e : Obj} {kv : String × Val}
    (h : kv ∈ normalize_pattern e) : kv ∈ e :=
  (List.mem_filter.mp h).1

theorem not_metadata_of_mem_normalize {e : Obj} {kv : String × Val}
    (h : kv ∈ normalize_pattern e) : kv.1 ∉ METADATA_FIELDS := by
  have h2 := (List.mem_filter.mp h).2
  intro hm
  rw [← contains_iff_mem] at hm
  rw [hm] at h2
  simp at h2

theorem pyGet_normalize {e : Obj} {k : String} (hk : k ∉ METADATA_FIELDS) :
    pyGet (normalize_pattern e) k = pyGet e k := by
  induction e with
  | nil => rfl
  | cons kv rest ih =>
    by_cases hm : METADATA_FIELDS.contains kv.1
    · have hne : (kv.1 == k) = false := by
        rw [contains_iff_mem] at hm
        simp only [beq_eq_false_iff_ne, ne_eq]
        intro he
        exact hk (he ▸ hm)
      simp only [normalize_pattern, List.filter, hm, Bool.not_true] at ih ⊢
      simp only [pyGet, lookupPairs, List.find?, hne]
      exact ih
    · simp only [normalize_pattern, List.filter, hm, Bool.not_false] at ih ⊢
      by_cases he : (kv.1 == k)
      · simp [pyGet, lookupPairs, List.find?, he]
      · simp only [Bool.not_eq_true] at he
        simp only [pyGet, lookupPairs, List.find?, he]
        exact ih

theorem c3_aux (m : List (Val × Val)) (n : Nat) :
    (∀ t : ETree, sizeOf t ≤ n →
       remapExpressionTree m (encodeETree t) = encodeETree (mapETree m t)) ∧
    (∀ ts : List ETree, sizeOf ts ≤ n →
       remapTreeList m (encodeETreeL ts) = encodeETreeL (mapETreeL m ts)) := by
  induction n using Nat.strong_induction_on with
  | _ n ih =>
    constructor
    · intro t hs
      obtain ⟨ri, subs, rest⟩ := t
      have hsubs : sizeOf subs < n := by
        have : sizeOf (ETree.mk ri subs rest) =
            1 + sizeOf ri + sizeOf subs + sizeOf rest := by simp
        omega
      have ihl := (ih (sizeOf subs) hsubs).2 subs le_rfl
      cases ri with
      | none =>
        cases subs with
        | nil =>
          simp [encodeETree, mapETree, mapETreeL, encodeETreeL, remapExpressionTree,
            remapTreeList, pyGet, lookupPairs, List.find?, setKey, upsert, Val.truthy]
        | cons t0 ts0 =>
          have ihl2 : remapTreeList m (encodeETree t0 :: encodeETreeL ts0) =
              encodeETreeL (mapETreeL m (t0 :: ts0)) := by
            simpa [encodeETreeL] using ihl
          simp [encodeETree, mapETree, remapExpressionTree, pyGet, lookupPairs,
            List.find?, setKey, upsert, Val.truthy, encodeETreeL, ihl2]
      | some q =>
        obtain ⟨i, rrest⟩ := q
        cases hlk : lookupPairs m i with
        | none =>
          simp only [lookupPairs] at hlk
          cases subs with
          | nil =>
            simp [encodeETree, mapETree, mapETreeL, encodeETreeL, remapExpressionTree,
              remapTreeList, pyGet, lookupPairs, List.find?, setKey, upsert, Val.truthy, hlk]
          | cons t0 ts0 =>
            have ihl2 : remapTreeList m (encodeETree t0 :: encodeETreeL ts0) =
                encodeETreeL (mapETreeL m (t0 :: ts0)) := by
              simpa [encodeETreeL] using ihl
            simp [encodeETree, mapETree, remapExpressionTree, pyGet, lookupPairs,
              List.find?, setKey, upsert, Val.truthy, encodeETreeL, ihl2, hlk]
        | some nid =>
          simp only [lookupPairs] at hlk
          cases subs with
          | nil =>
            simp [encodeETree, mapETree, mapETreeL, encodeETreeL, remapExpressionTree,
              remapTreeList, pyGet, lookupPairs, List.find?, setKey, upsert, Val.truthy, hlk]
          | cons t0 ts0 =>
            have ihl2 : remapTreeList m (encodeETree t0 :: encodeETreeL ts0) =
                encodeETreeL (mapETreeL m (t0 :: ts0)) := by
              simpa [encodeETreeL] using ihl
            simp [encodeETree, mapETree, remapExpressionTree, pyGet, lookupPairs,
              List.find?, setKey, upsert, Val.truthy, encodeETreeL, ihl2, hlk]
    · intro ts hs
      cases ts with
      | nil => simp [encodeETreeL, mapETreeL, remapTreeList]
      | cons t0 ts0 =>
        have ht : sizeOf t0 < n := by
          have : sizeOf (t0 :: ts0) = 1 + sizeOf t0 + sizeOf ts0 := by simp
          omega
        have hts : sizeOf ts0 < n := by
          have : sizeOf (t0 :: ts0) = 1 + sizeOf t0 + sizeOf ts0 := by simp
          omega
        simp [encodeETreeL, mapETreeL, remapTreeList,
          (ih (sizeOf t0) ht).1 t0 le_rfl, (ih (sizeOf ts0) hts).2 ts0 le_rfl]

theorem remapTree_encode (m : List (Val × Val)) (t : ETree) :
    remapExpressionTree m (encodeETree t) = encodeETree (mapETree m t) :=
  (c3_aux m (sizeOf t)).1 t le_rfl

theorem remapRuleItemId_encode (m : List (Val × Val)) (x : ARuleItem) :
    remapRuleItemId m (encodeARuleItem x) = encodeARuleItem (mapARuleItem m x) := by
  obtain ⟨i, rest⟩ := x
  cases hlk : lookupPairs m i with
  | none =>
    simp only [lookupPairs] at hlk
    simp [remapRuleItemId, encodeARuleItem, mapARuleItem, pyGet, lookupPairs, List.find?,
      setKey, upsert, hlk]
  | some nid =>
    simp only [lookupPairs] at hlk
    simp [remapRuleItemId, encodeARuleItem, mapARuleItem, pyGet, lookupPairs, List.find?,
      setKey, upsert, hlk]

theorem remapCondition_encode (m : List (Val × Val)) (c : ACond) :
    remapCondition m (encodeACond c) = encodeACond (mapACond m c) := by
  obtain ⟨items, rest⟩ := c
  cases items with
  | nil =>
    simp [remapCondition, encodeACond, mapACond, pyGet, lookupPairs, List.find?, setKey,
      upsert, Val.truthy]
  | cons x xs =>
    simp [remapCondition, encodeACond, mapACond, pyGet, lookupPairs, List.find?, setKey,
      upsert, Val.truthy, remapRuleItemId_encode]

theorem remapAdvRule_encode (m : List (Val × Val)) (r : ARule) :
    remapAdvRule m (encodeARule r) = encodeARule (mapARule m r) := by
  obtain ⟨conds, rest⟩ := r
  cases conds with
  | nil =>
    simp [remapAdvRule, encodeARule, mapARule, pyGet, lookupPairs, List.find?, setKey,
      upsert, Val.truthy]
  | cons c cs =>
    simp [remapAdvRule, encodeARule, mapARule, pyGet, lookupPairs, List.find?, setKey,
      upsert, Val.truthy, remapCondition_encode]

theorem encodeETree_truthy (t : ETree) : (encodeETree t).truthy = true := by
  obtain ⟨ri, subs, rest⟩ := t
  cases ri <;> simp [encodeETree, Val.truthy]

theorem remapDetRule_encode (m : List (Val × Val)) (r : ADetRule) :
    remapDetRule m (encodeADetRule r) = encodeADetRule (mapADetRule m r) := by
  obtain ⟨t, rest⟩ := r
  simp [remapDetRule, encodeADetRule, mapADetRule, pyGet, lookupPairs, List.find?, setKey,
    upsert, encodeETree_truthy, remapTree_encode]

theorem encKeyLE_trans (a b c : Val)
    (hab : Nat.ble (encodeVal a) (encodeVal b) = true)
    (hbc : Nat.ble (encodeVal b) (encodeVal c) = true) :
    Nat.ble (encodeVal a) (encodeVal c) = true := by
  simp only [Nat.ble_eq] at *
  omega

theorem encKeyLE_total (a b : Val) :
    (Nat.ble (encodeVal a) (encodeVal b) || Nat.ble (encodeVal b) (encodeVal a)) = true := by
  simp only [Bool.or_eq_true, Nat.ble_eq]
  omega

theorem sortByEnc_congr {l1 l2 : List Val} (h : l1.Perm l2) :
    sortByEnc l1 = sortByEnc l2 := by
  haveI : IsAntisymm Val (fun a b => Nat.ble (encodeVal a) (encodeVal b) = true) := by
    constructor
    intro a b hab hba
    simp only [Nat.ble_eq] at hab hba
    exact encodeVal_inj (Nat.le_antisymm hab hba)
  refine List.eq_of_perm_of_sorted
    (r := fun a b => Nat.ble (encodeVal a) (encodeVal b) = true)
    (((l1.mergeSort_perm _).trans h).trans (l2.mergeSort_perm _).symm) ?_ ?_
  · exact List.sorted_mergeSort encKeyLE_trans encKeyLE_total l1
  · exact List.sorted_mergeSort encKeyLE_trans encKeyLE_total l2

theorem entryKey_inj {a b : String × Val} (h : entryKey a = entryKey b) : a = b := by
  obtain ⟨k1, v1⟩ := a
  obtain ⟨k2, v2⟩ := b
  simp only [entryKey, Nat.pair_eq_pair] at h
  exact Prod.ext_iff.mpr ⟨encStr_inj h.1, encodeVal_inj h.2⟩

theorem entKeyLE_trans (a b c : String × Val)
    (hab : Nat.ble (entryKey a) (entryKey b) = true)
    (hbc : Nat.ble (entryKey b) (entryKey c) = true) :
    Nat.ble (entryKey a) (entryKey c) = true := by
  simp only [Nat.ble_eq] at *
  omega

theorem entKeyLE_total (a b : String × Val) :
    (Nat.ble (entryKey a) (entryKey b) || Nat.ble (entryKey b) (entryKey a)) = true := by
  simp only [Bool.or_eq_true, Nat.ble_eq]
  omega

theorem sortEntries_congr {l1 l2 : List (String × Val)} (h : l1.Perm l2) :
    sortEntries l1 = sortEntries l2 := by
  haveI : IsAntisymm (String × Val) (fun a b => Nat.ble (entryKey a) (entryKey b) = true) := by
    constructor
    intro a b hab hba
    simp only [Nat.ble_eq] at hab hba
    exact entryKey_inj (Nat.le_antisymm hab hba)
  refine List.eq_of_perm_of_sorted
    (r := fun a b => Nat.ble (entryKey a) (entryKey b) = true)
    (((l1.mergeSort_perm _).trans h).trans (l2.mergeSort_perm _).symm) ?_ ?_
  · exact List.sorted_mergeSort entKeyLE_trans entKeyLE_total l1
  · exact List.sorted_mergeSort entKeyLE_trans entKeyLE_total l2

theorem canonL_map (xs : List Val) : canonL xs = xs.map canon := by
  induction xs with
  | nil => simp [canonL]
  | cons x xs ih => simp [canonL, ih]

theorem canonL_congr : ∀ (xs zs : List Val), xs.length = zs.length →
    (∀ p ∈ xs.zip zs, canon p.1 = canon p.2) → canonL xs = canonL zs := by
  intro xs
  induction xs with
  | nil => intro zs hlen _; cases zs with
    | nil => rfl
    | cons z zs => simp at hlen
  | cons x xs ih =>
    intro zs hlen hpt
    cases zs with
    | nil => simp at hlen
    | cons z zs =>
      simp only [List.length_cons, Nat.add_right_cancel_iff] at hlen
      have h1 := hpt (x, z) (by simp [List.zip])
      have h2 : ∀ p ∈ xs.zip zs, canon p.1 = canon p.2 := fun p hp =>
        hpt p (by simp [List.zip] at hp ⊢; exact Or.inr hp)
      simp [canonL, h1, ih zs hlen h2]

theorem canonD_congr : ∀ (es fs : List (String × Val)), es.length = fs.length →
    (∀ q ∈ es.zip fs, q.1.1 = q.2.1) →
    (∀ q ∈ es.zip fs, q.1.1 ≠ excludedKey → canon q.1.2 = canon q.2.2) →
    canonD es = canonD fs := by
  intro es
  induction es with
  | nil => intro fs hlen _ _; cases fs with
    | nil => rfl
    | cons f fs => simp at hlen
  | cons e es ih =>
    intro fs hlen hkeys hvals
    cases fs with
    | nil => simp at hlen
    | cons f fs =>
      obtain ⟨k, v⟩ := e
      obtain ⟨k2, v2⟩ := f
      simp only [List.length_cons, Nat.add_right_cancel_iff] at hlen
      have hk : k = k2 := hkeys ((k, v), (k2, v2)) (by simp [List.zip])
      have hkeys2 : ∀ q ∈ es.zip fs, q.1.1 = q.2.1 := fun q hq =>
        hkeys q (by simp [List.zip] at hq ⊢; exact Or.inr hq)
      have hvals2 : ∀ q ∈ es.zip fs, q.1.1 ≠ excludedKey → canon q.1.2 = canon q.2.2 :=
        fun q hq => hvals q (by simp [List.zip] at hq ⊢; exact Or.inr hq)
      subst hk
      by_cases hx : k = excludedKey
      · simp [canonD, hx, ih fs hlen hkeys2 hvals2]
      · have hv : canon v = canon v2 :=
          hvals ((k, v), (k, v2)) (by simp [List.zip]) hx
        have hxb : (k == excludedKey) = false := by simp [hx]
        simp [canonD, hxb, hv, ih fs hlen hkeys2 hvals2]

theorem equivMod_canon : ∀ {a b : Val}, EquivMod a b → canon a = canon b := by
  intro a b h
  induction h with
  | refl v => rfl
  | list xs zs ys hlen hpt hperm ih =>
    have h1 : canonL xs = canonL zs := canonL_congr xs zs hlen ih
    have h2 : (canonL zs).Perm (canonL ys) := by
      rw [canonL_map, canonL_map]
      exact hperm.map canon
    simp only [canon]
    rw [h1, sortByEnc_congr h2]
  | dict es fs hlen hkeys hvals ih =>
    simp only [canon]
    rw [canonD_congr es fs hlen hkeys ih]

theorem lookupPairs_upsert {κ ν : Type} [BEq κ] [LawfulBEq κ]
    (m : List (κ × ν)) (k q : κ) (v : ν) :
    lookupPairs (upsert m k v) q = if q == k then some v else lookupPairs m q := by
  induction m with
  | nil =>
    by_cases h : q == k
    · simp only [beq_iff_eq] at h
      subst h
      simp [upsert, lookupPairs, List.find?]
    · have hb : (q == k) = false := by simp only [Bool.not_eq_true] at h; exact h
      have hb2 : (k == q) = false := by
        simp only [beq_eq_false_iff_ne] at hb ⊢
        exact fun he => hb he.symm
      simp [upsert, lookupPairs, List.find?, hb, hb2]
  | cons e rest ih =>
    obtain ⟨k0, v0⟩ := e
    by_cases h0 : k0 == k
    · simp only [beq_iff_eq] at h0
      subst h0
      by_cases hq : k0 == q
      · simp only [beq_iff_eq] at hq
        subst hq
        simp [upsert, lookupPairs, List.find?]
      · have hb : (k0 == q) = false := by simp only [Bool.not_eq_true] at hq; exact hq
        have hb2 : (q == k0) = false := by
          simp only [beq_eq_false_iff_ne] at hb ⊢
          exact fun he => hb he.symm
        simp [upsert, lookupPairs, List.find?, hb, hb2]
    · have h0b : (k0 == k) = false := by simp only [Bool.not_eq_true] at h0; exact h0
      by_cases hq : k0 == q
      · have hq1 : k0 = q := by simpa using hq
        have hb2 : (q == k) = false := by
          rw [beq_eq_false_iff_ne] at h0b ⊢
          exact fun he => h0b (hq1 ▸ he)
        simp [upsert, lookupPairs, List.find?, h0b, hb2, hq]
      · have hqb : (k0 == q) = false := by simp only [Bool.not_eq_true] at hq; exact hq
        simp only [upsert, h0b, Bool.false_eq_true, if_false]
        simp only [lookupPairs, List.find?, hqb] at ih ⊢
        exact ih

theorem keys_upsert {κ ν : Type} [BEq κ] [LawfulBEq κ]
    (m : List (κ × ν)) (k : κ) (v : ν) :
    ∀ x ∈ (upsert m k v).map Prod.fst, x ∈ m.map Prod.fst ∨ x = k := by
  induction m with
  | nil => intro x hx; simp [upsert] at hx; simp [hx]
  | cons e rest ih =>
    obtain ⟨k0, v0⟩ := e
    intro x hx
    by_cases h0 : k0 == k
    · simp only [upsert, h0, if_true] at hx
      simp at hx ⊢
      tauto
    · have h0b : (k0 == k) = false := by simp only [Bool.not_eq_true] at h0; exact h0
      simp only [upsert, h0b, Bool.false_eq_true, if_false] at hx
      simp only [List.map_cons, List.mem_cons] at hx ⊢
      rcases hx with hx | hx
      · tauto
      · rcases ih x hx with h | h
        · tauto
        · tauto

theorem nodup_keys_upsert {κ ν : Type} [BEq κ] [LawfulBEq κ]
    (m : List (κ × ν)) (k : κ) (v : ν) (h : (m.map Prod.fst).Nodup) :
    ((upsert m k v).map Prod.fst).Nodup := by
  induction m with
  | nil => simp [upsert]
  | cons e rest ih =>
    obtain ⟨k0, v0⟩ := e
    by_cases h0 : k0 == k
    · simpa [upsert, h0] using h
    · have h0b : (k0 == k) = false := by simp only [Bool.not_eq_true] at h0; exact h0
      simp only [List.map_cons, List.nodup_cons] at h
      simp only [upsert, h0b, Bool.false_eq_true, if_false, List.map_cons, List.nodup_cons]
      refine ⟨fun hmem => ?_, ih h.2⟩
      rcases keys_upsert rest k v k0 hmem with hm | hm
      · exact h.1 hm
      · rw [beq_eq_false_iff_ne] at h0b
        exact h0b hm


theorem lookupPairs_eq_none {κ ν : Type} [BEq κ] [LawfulBEq κ]
    (m : List (κ × ν)) (n : κ) (h : n ∉ m.map Prod.fst) :
    lookupPairs m n = none := by
  induction m with
  | nil => rfl
  | cons e rest ih =>
    obtain ⟨k0, v0⟩ := e
    simp only [List.map_cons, List.mem_cons] at h
    push_neg at h
    have hb : (k0 == n) = false := by
      rw [beq_eq_false_iff_ne]
      exact fun he => h.1 he.symm
    simp only [lookupPairs, List.find?, hb] at ih ⊢
    exact ih h.2

theorem foldl_dict_lookup (l : List Obj) (n : Val) :
    ∀ acc : List (Val × Obj),
      lookupPairs (l.foldl (fun m p => upsert m (pyGet p "name") p) acc) n =
        (lastWithName n l).or (lookupPairs acc n) := by
  induction l with
  | nil => intro acc; simp [lastWithName]
  | cons p l ih =>
    intro acc
    simp only [List.foldl_cons]
    rw [ih (upsert acc (pyGet p "name") p)]
    rw [lookupPairs_upsert]
    have hlast : lastWithName n (p :: l) =
        (lastWithName n l).or (if pyGet p "name" == n then some p else none) := by
      simp only [lastWithName, List.reverse_cons, List.find?_append]
      cases hf : List.find? (fun q => pyGet q "name" == n) l.reverse
      · cases hc : pyGet p "name" == n <;> simp [List.find?, Option.or, hc]
      · simp [Option.or]
    rw [hlast]
    have hcomm : (n == pyGet p "name") = (pyGet p "name" == n) := by
      by_cases he : n = pyGet p "name"
      · simp [he]
      · have h1 : (n == pyGet p "name") = false := by rw [beq_eq_false_iff_ne]; exact he
        have h2 : (pyGet p "name" == n) = false := by
          rw [beq_eq_false_iff_ne]; exact fun x => he x.symm
        rw [h1, h2]
    rw [hcomm]
    cases hc : pyGet p "name" == n
    · simp
    · cases hl : lastWithName n l <;> simp [Option.or]

theorem dictByName_lookup (l : List Obj) (n : Val) :
    lookupPairs (dictByName l) n = lastWithName n l := by
  have := foldl_dict_lookup l n []
  simpa [dictByName, lookupPairs] using this

theorem dictByName_nodup_keys (l : List Obj) :
    ((dictByName l).map Prod.fst).Nodup := by
  have haux : ∀ acc : List (Val × Obj), (acc.map Prod.fst).Nodup →
      ((l.foldl (fun m p => upsert m (pyGet p "name") p) acc).map Prod.fst).Nodup := by
    induction l with
    | nil => intro acc h; exact h
    | cons p l ih =>
      intro acc h
      exact ih (upsert acc (pyGet p "name") p) (nodup_keys_upsert acc (pyGet p "name") p h)
  exact haux [] (by simp)

theorem dictByName_entry_name (l : List Obj) :
    ∀ q ∈ dictByName l, pyGet q.2 "name" = q.1 := by
  have haux : ∀ acc : List (Val × Obj), (∀ q ∈ acc, pyGet q.2 "name" = q.1) →
      ∀ q ∈ l.foldl (fun m p => upsert m (pyGet p "name") p) acc, pyGet q.2 "name" = q.1 := by
    induction l with
    | nil => intro acc h; exact h
    | cons p l ih =>
      intro acc h
      refine ih (upsert acc (pyGet p "name") p) ?_
      have hup : ∀ (m : List (Val × Obj)) (k : Val) (v : Obj),
          (∀ q ∈ m, pyGet q.2 "name" = q.1) →
          pyGet v "name" = k → ∀ q ∈ upsert m k v, pyGet q.2 "name" = q.1 := by
        intro m k v
        induction m with
        | nil => intro hm hv q hq; simp [upsert] at hq; simp [hq, hv]
        | cons e rest ihm =>
          obtain ⟨k0, v0⟩ := e
          intro hm hv q hq
          by_cases h0 : k0 == k
          · have h0e : k0 = k := by simpa using h0
            simp only [upsert, h0, if_true] at hq
            rcases List.mem_cons.mp hq with hq | hq
            · subst hq; simpa [h0e] using hv
            · exact hm q (List.mem_cons_of_mem _ hq)
          · have h0b : (k0 == k) = false := by simp only [Bool.not_eq_true] at h0; exact h0
            simp only [upsert, h0b, Bool.false_eq_true, if_false] at hq
            rcases List.mem_cons.mp hq with hq | hq
            · subst hq; exact hm (k0, v0) (List.mem_cons_self _ _)
            · exact ihm (fun r hr => hm r (List.mem_cons_of_mem _ hr)) hv q hq
      exact hup acc (pyGet p "name") p h rfl
  exact haux [] (by simp)


theorem classifyOne_cases (dd : List (Val × Obj)) (pm fm : Option (List (Val × Val)))
    (k : Val) (sp : Obj) :
    classifyOne dd pm fm k sp = ([sp], [], []) ∨
    (∃ dp, classifyOne dd pm fm k sp = ([], [(sp, dp)], [])) ∨
    classifyOne dd pm fm k sp = ([], [], [sp]) := by
  unfold classifyOne
  cases lookupPairs dd k with
  | none => exact Or.inl rfl
  | some dp =>
    dsimp only
    split
    · right; right; rfl
    · right; left; exact ⟨dp, rfl⟩


theorem classifyLoop_filterName (dd : List (Val × Obj))
    (pm fm : Option (List (Val × Val))) (n : Val) :
    ∀ entries : List (Val × Obj),
      (∀ q ∈ entries, pyGet q.2 "name" = q.1) →
      (entries.map Prod.fst).Nodup →
      ((classifyLoop dd pm fm entries).1.filter (fun p => pyGet p "name" == n),
       (classifyLoop dd pm fm entries).2.1.filter (fun q => pyGet q.1 "name" == n),
       (classifyLoop dd pm fm entries).2.2.filter (fun p => pyGet p "name" == n)) =
      (match lookupPairs entries n with
       | none => ([], [], [])
       | some sp => classifyOne dd pm fm n sp) := by
  intro entries
  induction entries with
  | nil => intro _ _; simp [classifyLoop, lookupPairs, List.find?]
  | cons e rest ih =>
    obtain ⟨k, sp⟩ := e
    intro hnames hnodup
    have hname_sp : pyGet sp "name" = k := hnames (k, sp) (List.mem_cons_self _ _)
    have hnames2 : ∀ q ∈ rest, pyGet q.2 "name" = q.1 := fun q hq =>
      hnames q (List.mem_cons_of_mem _ hq)
    simp only [List.map_cons, List.nodup_cons] at hnodup
    have ih2 := ih hnames2 hnodup.2
    rcases hcl : classifyLoop dd pm fm rest with ⟨tc, tu, idn⟩
    rw [hcl] at ih2
    by_cases hk : k = n
    · subst hk
      have hrest : lookupPairs rest k = none := lookupPairs_eq_none rest k hnodup.1
      rw [hrest] at ih2
      have e1 := congrArg (fun t => t.1) ih2
      have e2 := congrArg (fun t => t.2.1) ih2
      have e3 := congrArg (fun t => t.2.2) ih2
      simp only at e1 e2 e3
      have hlook : lookupPairs ((k, sp) :: rest) k = some sp := by
        simp [lookupPairs, List.find?]
      have hbeq : (pyGet sp "name" == k) = true := by simp [hname_sp]
      rcases classifyOne_cases dd pm fm k sp with hc | ⟨dp, hc⟩ | hc <;>
        simp [classifyLoop, hcl, hc, hlook, List.filter_append, e1, e2, e3, hbeq]
    · have hbk : (k == n) = false := by rw [beq_eq_false_iff_ne]; exact hk
      have hlook : lookupPairs ((k, sp) :: rest) n = lookupPairs rest n := by
        simp [lookupPairs, List.find?, hbk]
      have hspn : (pyGet sp "name" == n) = false := by
        rw [beq_eq_false_iff_ne, hname_sp]; exact hk
      rcases classifyOne_cases dd pm fm k sp with hc | ⟨dp, hc⟩ | hc <;>
        · simp only [classifyLoop, hcl, hc, hlook, List.filter_append, List.filter_cons,
            hspn, Bool.false_eq_true, if_false, List.filter_nil, List.nil_append]
          exact ih2


theorem lastWithName_isSome {l : List Obj} {n : Val}
    (h : l.filter (fun p => pyGet p "name" == n) ≠ []) :
    ∃ s, lastWithName n l = some s := by
  rw [← Option.isSome_iff_exists, lastWithName, List.find?_isSome]
  by_contra hc
  push_neg at hc
  refine h (List.filter_eq_nil_iff.mpr ?_)
  intro a ha hpa
  exact hc a (List.mem_reverse.mpr ha) hpa



theorem applyCreatePatterns_spec (w : World) (token : String) :
    ∀ items : List Obj,
      (applyCreatePatterns w token items).1.1 =
        items.filterMap (fun p =>
          match w.push (.createPat token (normalize_pattern p)) with
          | .ok _ => some (pyGet p "name")
          | .error _ => none) ∧
      (applyCreatePatterns w token items).1.2 =
        items.filterMap (fun p =>
          match w.push (.createPat token (normalize_pattern p)) with
          | .ok _ => none
          | .error m => some (pyGet p "name", m)) ∧
      (applyCreatePatterns w token items).1.1.length +
        (applyCreatePatterns w token items).1.2.length = items.length ∧
      (applyCreatePatterns w token items).2 =
        items.map (fun p => .createPat token (normalize_pattern p)) := by
  intro items
  induction items with
  | nil => simp [applyCreatePatterns]
  | cons p rest ih =>
    obtain ⟨ih1, ih2, ih3, ih4⟩ := ih
    rw [ih1, ih2] at ih3
    cases hp : w.push (.createPat token (normalize_pattern p)) with
    | ok o =>
      simp [applyCreatePatterns, create_pattern, hp, ih1, ih2, ih4, List.filterMap_cons]
      omega
    | error m =>
      simp [applyCreatePatterns, create_pattern, hp, ih1, ih2, ih4, List.filterMap_cons]
      omega

theorem applyUpdatePatterns_spec (w : World) (token : String) :
    ∀ items : List (Obj × Obj),
      (applyUpdatePatterns w token items).1.1 =
        items.filterMap (fun q =>
          match w.push (.updatePat token (pyGet q.2 "id") (normalize_pattern q.1)) with
          | .ok _ => some (pyGet q.1 "name")
          | .error _ => none) ∧
      (applyUpdatePatterns w token items).1.2 =
        items.filterMap (fun q =>
          match w.push (.updatePat token (pyGet q.2 "id") (normalize_pattern q.1)) with
          | .ok _ => none
          | .error m => some (pyGet q.1 "name", m)) ∧
      (applyUpdatePatterns w token items).1.1.length +
        (applyUpdatePatterns w token items).1.2.length = items.length ∧
      (applyUpdatePatterns w token items).2 =
        items.map (fun q => .updatePat token (pyGet q.2 "id") (normalize_pattern q.1)) := by
  intro items
  induction items with
  | nil => simp [applyUpdatePatterns]
  | cons q rest ih =>
    obtain ⟨s, d⟩ := q
    obtain ⟨ih1, ih2, ih3, ih4⟩ := ih
    rw [ih1, ih2] at ih3
    cases hp : w.push (.updatePat token (pyGet d "id") (normalize_pattern s)) with
    | ok o =>
      simp [applyUpdatePatterns, update_pattern, hp, ih1, ih2, ih4, List.filterMap_cons]
      omega
    | error m =>
      simp [applyUpdatePatterns, update_pattern, hp, ih1, ih2, ih4, List.filterMap_cons]
      omega

theorem applyCreateProfiles_spec (w : World) (token : String)
    (pm : List (Val × Val)) (fm : Option (List (Val × Val))) :
    ∀ items : List Obj,
      (applyCreateProfiles w token pm fm items).1.1 =
        items.filterMap (fun p =>
          match w.push (.createProf token (profile_push_body pm fm p)) with
          | .ok _ => some (pyGet p "name")
          | .error _ => none) ∧
      (applyCreateProfiles w token pm fm items).1.2 =
        items.filterMap (fun p =>
          match w.push (.createProf token (profile_push_body pm fm p)) with
          | .ok _ => none
          | .error m => some (pyGet p "name", m)) ∧
      (applyCreateProfiles w token pm fm items).1.1.length +
        (applyCreateProfiles w token pm fm items).1.2.length = items.length ∧
      (applyCreateProfiles w token pm fm items).2 =
        items.map (fun p => .createProf token (profile_push_body pm fm p)) := by
  intro items
  induction items with
  | nil => simp [applyCreateProfiles]
  | cons p rest ih =>
    obtain ⟨ih1, ih2, ih3, ih4⟩ := ih
    rw [ih1, ih2] at ih3
    cases hp : w.push (.createProf token (profile_push_body pm fm p)) with
    | ok o =>
      simp [applyCreateProfiles, create_profile, hp, ih1, ih2, ih4, List.filterMap_cons]
      omega
    | error m =>
      simp [applyCreateProfiles, create_profile, hp, ih1, ih2, ih4, List.filterMap_cons]
      omega

theorem applyUpdateProfiles_spec (w : World) (token : String)
    (pm : List (Val × Val)) (fm : Option (List (Val × Val))) :
    ∀ items : List (Obj × Obj),
      (applyUpdateProfiles w token pm fm items).1.1 =
        items.filterMap (fun q =>
          match w.push (.updateProf token (pyGet q.2 "id") (profile_push_body pm fm q.1)) with
          | .ok _ => some (pyGet q.1 "name")
          | .error _ => none) ∧
      (applyUpdateProfiles w token pm fm items).1.2 =
        items.filterMap (fun q =>
          match w.push (.updateProf token (pyGet q.2 "id") (profile_push_body pm fm q.1)) with
          | .ok _ => none
          | .error m => some (pyGet q.1 "name", m)) ∧
      (applyUpdateProfiles w token pm fm items).1.1.length +
        (applyUpdateProfiles w token pm fm items).1.2.length = items.length ∧
      (applyUpdateProfiles w token pm fm items).2 =
        items.map (fun q => .updateProf token (pyGet q.2 "id") (profile_push_body pm fm q.1)) := by
  intro items
  induction items with
  | nil => simp [applyUpdateProfiles]
  | cons q rest ih =>
    obtain ⟨s, d⟩ := q
    obtain ⟨ih1, ih2, ih3, ih4⟩ := ih
    rw [ih1, ih2] at ih3
    cases hp : w.push (.updateProf token (pyGet d "id") (profile_push_body pm fm s)) with
    | ok o =>
      simp [applyUpdateProfiles, update_profile, hp, ih1, ih2, ih4, List.filterMap_cons]
      omega
    | error m =>
      simp [applyUpdateProfiles, update_profile, hp, ih1, ih2, ih4, List.filterMap_cons]
      omega

theorem syncDest_dry (w : World) (stok : String) (sp sprof : List Obj) (d : Dest)
    (spRaw dpRaw dprofRaw : List Obj)
    (hsp : w.fetch (.getPat stok) = .ok spRaw)
    (hdp : w.fetch (.getPat d.token) = .ok dpRaw)
    (hdprof : w.fetch (.getProf d.token) = .ok dprofRaw) :
    syncDest w stok sp sprof true d =
      (.ok ⟨⟨(compare_patterns sp (customPatterns dpRaw) none none).1.length,
            (compare_patterns sp (customPatterns dpRaw) none none).2.1.length,
            (compare_patterns sp (customPatterns dpRaw) none none).2.2.length,
            [], [], []⟩,
           ⟨(compare_patterns sprof (customProfiles dprofRaw)
               (some (build_id_mapping spRaw dpRaw))
               (some (build_id_mapping sprof (customProfiles dprofRaw)))).1.length,
            (compare_patterns sprof (customProfiles dprofRaw)
               (some (build_id_mapping spRaw dpRaw))
               (some (build_id_mapping sprof (customProfiles dprofRaw)))).2.1.length,
            (compare_patterns sprof (customProfiles dprofRaw)
               (some (build_id_mapping spRaw dpRaw))
               (some (build_id_mapping sprof (customProfiles dprofRaw)))).2.2.length,
            [], [], []⟩⟩,
       [.getPat d.token, .getPat stok, .getPat d.token, .getProf d.token]) := by
  simp [syncDest, get_data_patterns, get_data_profiles, hsp, hdp, hdprof]

theorem syncDest_dry_trace (w : World) (stok : String) (sp sprof : List Obj) (d : Dest) :
    (syncDest w stok sp sprof true d).2.all (fun c => !isMutatingCall c) = true := by
  cases h1 : w.fetch (.getPat d.token) with
  | error m => simp [syncDest, get_data_patterns, h1, isMutatingCall]
  | ok dpRaw =>
    cases h2 : w.fetch (.getPat stok) with
    | error m => simp [syncDest, get_data_patterns, h1, h2, isMutatingCall]
    | ok spRaw =>
      cases h3 : w.fetch (.getProf d.token) with
      | error m => simp [syncDest, get_data_patterns, get_data_profiles, h1, h2, h3,
          isMutatingCall]
      | ok dprofRaw =>
        simp [syncDest, get_data_patterns, get_data_profiles, h1, h2, h3, isMutatingCall]

theorem syncDest_fetch_error (w : World) (stok : String) (sp sprof : List Obj)
    (dry : Bool) (d : Dest) (m : String)
    (h : w.fetch (.getPat d.token) = .error m) :
    (syncDest w stok sp sprof dry d).1 = .fail m := by
  simp [syncDest, get_data_patterns, h]

theorem syncLoop_pairs (w : World) (stok : String) (sp sprof : List Obj) (dry : Bool) :
    ∀ sel : List Dest,
      (syncLoop w stok sp sprof dry sel).1 =
        sel.map (fun d => (d.name, (syncDest w stok sp sprof dry d).1)) := by
  intro sel
  induction sel with
  | nil => simp [syncLoop]
  | cons d ds ih => simp [syncLoop, ih]

theorem syncLoop_trace (w : World) (stok : String) (sp sprof : List Obj) (dry : Bool) :
    ∀ sel : List Dest,
      (syncLoop w stok sp sprof dry sel).2 =
        sel.flatMap (fun d => (syncDest w stok sp sprof dry d).2) := by
  intro sel
  induction sel with
  | nil => simp [syncLoop]
  | cons d ds ih => simp [syncLoop, ih]

theorem foldl_upsert_lookup {κ ν : Type} [BEq κ] [LawfulBEq κ] (l : List (κ × ν)) (k : κ) :
    ∀ acc : List (κ × ν),
      lookupPairs (l.foldl (fun m q => upsert m q.1 q.2) acc) k =
        ((l.reverse.find? (fun q => q.1 == k)).map (fun q => q.2)).or (lookupPairs acc k) := by
  induction l with
  | nil => intro acc; simp
  | cons e l ih =>
    intro acc
    simp only [List.foldl_cons]
    rw [ih (upsert acc e.1 e.2), lookupPairs_upsert]
    have hsplit : ((e :: l).reverse.find? (fun q => q.1 == k)).map (fun q => q.2) =
        ((l.reverse.find? (fun q => q.1 == k)).map (fun q => q.2)).or
          (if e.1 == k then some e.2 else none) := by
      simp only [List.reverse_cons, List.find?_append]
      cases hf : List.find? (fun q => q.1 == k) l.reverse
      · cases hc : e.1 == k <;> simp [List.find?, Option.or, hc]
      · simp [Option.or]
    rw [hsplit]
    have hcomm : (k == e.1) = (e.1 == k) := by
      by_cases he : k = e.1
      · simp [he]
      · have h1 : (k == e.1) = false := by rw [beq_eq_false_iff_ne]; exact he
        have h2 : (e.1 == k) = false := by
          rw [beq_eq_false_iff_ne]; exact fun x => he x.symm
        rw [h1, h2]
    rw [hcomm]
    cases hc : e.1 == k
    · simp
    · cases hl : (List.find? (fun q => q.1 == k) l.reverse).map (fun q => q.2) <;>
        simp [Option.or]

theorem find_eq_none_of_not_mem_keys {κ ν : Type} [BEq κ] [LawfulBEq κ]
    (l : List (κ × ν)) (k : κ) (h : k ∉ l.map Prod.fst) :
    l.find? (fun q => q.1 == k) = none := by
  have := lookupPairs_eq_none l k h
  simp only [lookupPairs] at this
  cases hf : l.find? (fun q => q.1 == k)
  · rfl
  · rw [hf] at this; simp at this

theorem find_reverse_nodup {κ ν : Type} [BEq κ] [LawfulBEq κ] (l : List (κ × ν)) (k : κ)
    (hn : (l.map Prod.fst).Nodup) :
    l.reverse.find? (fun q => q.1 == k) = l.find? (fun q => q.1 == k) := by
  induction l with
  | nil => rfl
  | cons e l ih =>
    simp only [List.map_cons, List.nodup_cons] at hn
    simp only [List.reverse_cons, List.find?_append, List.find?_cons]
    cases hc : e.1 == k
    · rw [ih hn.2]
      cases hf : l.find? (fun q => q.1 == k) <;> simp [List.find?, Option.orElse, hc]
    · have hk : k = e.1 := by
        have : e.1 = k := by simpa using hc
        exact this.symm
      have hnone : l.find? (fun q => q.1 == k) = none := by
        apply find_eq_none_of_not_mem_keys
        rw [hk]
        exact hn.1
      rw [ih hn.2, hnone]
      simp [List.find?, Option.orElse, hc]

theorem collectTenants_lookup (l : List (String × TenantEntry)) (k : String)
    (hn : (l.map Prod.fst).Nodup) :
    lookupPairs (collectTenants l) k = lookupPairs l k := by
  have h1 := foldl_upsert_lookup l k []
  rw [find_reverse_nodup l k hn] at h1
  simp only [collectTenants]
  rw [h1]
  cases hf : l.find? (fun q => q.1 == k) <;> simp [lookupPairs, Option.or, hf]

theorem lookup_map_name (f : Dest → TenantEntry) :
    ∀ sel : List Dest, (sel.map Dest.name).Nodup →
      ∀ d ∈ sel, lookupPairs (sel.map fun x => (x.name, f x)) d.name = some (f d) := by
  intro sel
  induction sel with
  | nil => intro _ d hd; simp at hd
  | cons e rest ih =>
    intro hn d hd
    simp only [List.map_cons, List.nodup_cons] at hn
    rcases List.mem_cons.mp hd with rfl | hd2
    · simp [lookupPairs, List.find?]
    · have hne : (e.name == d.name) = false := by
        rw [beq_eq_false_iff_ne]
        intro he
        exact hn.1 (he ▸ List.mem_map_of_mem Dest.name hd2)
      have := ih hn.2 d hd2
      simp only [List.map_cons, lookupPairs, List.find?, hne] at this ⊢
      exact this

theorem sync_tenants_lookup (f : Dest → TenantEntry) (sel : List Dest)
    (hn : (sel.map Dest.name).Nodup) (d : Dest) (hd : d ∈ sel) :
    lookupPairs (collectTenants (sel.map fun x => (x.name, f x))) d.name = some (f d) := by
  rw [collectTenants_lookup]
  · exact lookup_map_name f sel hn d hd
  · simpa [List.map_map, Function.comp] using hn

theorem sync_report_tenants (w : World) (stok sname : String) (dests : List Dest)
    (dry : Bool) (tt : Option (List String)) (sel : List Dest) (spRaw sprofRaw : List Obj)
    (hsp : w.fetch (.getPat stok) = .ok spRaw)
    (hsprof : w.fetch (.getProf stok) = .ok sprofRaw)
    (hsel : selectTenants dests tt = some sel) :
    (sync w stok sname dests dry tt).1 =
      .report ⟨sname, (customPatterns spRaw).length, (customProfiles sprofRaw).length,
        collectTenants (sel.map (fun d =>
          (d.name, (syncDest w stok (customPatterns spRaw)
            (customProfiles sprofRaw) dry d).1)))⟩ := by
  simp [sync, get_data_patterns, get_data_profiles, hsp, hsprof, hsel, syncLoop_pairs]

theorem filter_eq_nil_of_all_mutating (tr : List Call) (c0 : Call)
    (hc0 : isMutatingCall c0 = false) (h : tr.all isMutatingCall = true) :
    tr.filter (fun c => c == c0) = [] := by
  rw [List.filter_eq_nil_iff]
  intro a ha hpa
  have ha2 := List.all_eq_true.mp h a ha
  have hac : a = c0 := by simpa using hpa
  rw [hac, hc0] at ha2
  exact Bool.false_ne_true ha2

theorem applyCreatePatterns_trace_mut (w : World) (token : String) (items : List Obj) :
    (applyCreatePatterns w token items).2.all isMutatingCall = true := by
  rw [(applyCreatePatterns_spec w token items).2.2.2, List.all_eq_true]
  intro c hc
  rcases List.mem_map.mp hc with ⟨p, hp, rfl⟩
  rfl

theorem applyUpdatePatterns_trace_mut (w : World) (token : String)
    (items : List (Obj × Obj)) :
    (applyUpdatePatterns w token items).2.all isMutatingCall = true := by
  rw [(applyUpdatePatterns_spec w token items).2.2.2, List.all_eq_true]
  intro c hc
  rcases List.mem_map.mp hc with ⟨p, hp, rfl⟩
  rfl

theorem applyCreateProfiles_trace_mut (w : World) (token : String)
    (pm : List (Val × Val)) (fm : Option (List (Val × Val))) (items : List Obj) :
    (applyCreateProfiles w token pm fm items).2.all isMutatingCall = true := by
  rw [(applyCreateProfiles_spec w token pm fm items).2.2.2, List.all_eq_true]
  intro c hc
  rcases List.mem_map.mp hc with ⟨p, hp, rfl⟩
  rfl

theorem applyUpdateProfiles_trace_mut (w : World) (token : String)
    (pm : List (Val × Val)) (fm : Option (List (Val × Val))) (items : List (Obj × Obj)) :
    (applyUpdateProfiles w token pm fm items).2.all isMutatingCall = true := by
  rw [(applyUpdateProfiles_spec w token pm fm items).2.2.2, List.all_eq_true]
  intro c hc
  rcases List.mem_map.mp hc with ⟨p, hp, rfl⟩
  rfl

theorem syncDest_src_listing (w : World) (stok : String) (sp sprof : List Obj)
    (dry : Bool) (d : Dest)
    (hok : ∀ c, ∃ l, w.fetch c = .ok l) (htok : d.token ≠ stok) :
    ((syncDest w stok sp sprof dry d).2.filter
        (fun c => c == Call.getPat stok)).length = 1 ∧
    ((syncDest w stok sp sprof dry d).2.filter
        (fun c => c == Call.getProf stok)).length = 0 := by
  obtain ⟨spRaw, hsp⟩ := hok (.getPat stok)
  obtain ⟨dpRaw, hdp⟩ := hok (.getPat d.token)
  obtain ⟨dprofRaw, hdprof⟩ := hok (.getProf d.token)
  have ha : (Call.getPat d.token == Call.getPat stok) = false := by
    rw [beq_eq_false_iff_ne]
    intro he
    exact htok (by simpa using he)
  have hb : (Call.getPat stok == Call.getPat stok) = true := by simp
  have hc : (Call.getProf d.token == Call.getPat stok) = false := by
    rw [beq_eq_false_iff_ne]
    simp
  have he2 : (Call.getPat d.token == Call.getProf stok) = false := by
    rw [beq_eq_false_iff_ne]
    simp
  have hf : (Call.getPat stok == Call.getProf stok) = false := by
    rw [beq_eq_false_iff_ne]
    simp
  have hg : (Call.getProf d.token == Call.getProf stok) = false := by
    rw [beq_eq_false_iff_ne]
    intro he
    exact htok (by simpa using he)
  cases dry with
  | true =>
    rw [syncDest_dry w stok sp sprof d spRaw dpRaw dprofRaw hsp hdp hdprof]
    simp [List.filter, ha, hb, hc, he2, hf, hg]
  | false =>
    have hm1 : ∀ items, (applyCreatePatterns w d.token items).2.filter
        (fun c => c == Call.getPat stok) = [] := fun items =>
      filter_eq_nil_of_all_mutating _ _ rfl (applyCreatePatterns_trace_mut w d.token items)
    have hm2 : ∀ items, (applyUpdatePatterns w d.token items).2.filter
        (fun c => c == Call.getPat stok) = [] := fun items =>
      filter_eq_nil_of_all_mutating _ _ rfl (applyUpdatePatterns_trace_mut w d.token items)
    have hm3 : ∀ pm fm items, (applyCreateProfiles w d.token pm fm items).2.filter
        (fun c => c == Call.getPat stok) = [] := fun pm fm items =>
      filter_eq_nil_of_all_mutating _ _ rfl (applyCreateProfiles_trace_mut w d.token pm fm items)
    have hm4 : ∀ pm fm items, (applyUpdateProfiles w d.token pm fm items).2.filter
        (fun c => c == Call.getPat stok) = [] := fun pm fm items =>
      filter_eq_nil_of_all_mutating _ _ rfl (applyUpdateProfiles_trace_mut w d.token pm fm items)
    have hn1 : ∀ items, (applyCreatePatterns w d.token items).2.filter
        (fun c => c == Call.getProf stok) = [] := fun items =>
      filter_eq_nil_of_all_mutating _ _ rfl (applyCreatePatterns_trace_mut w d.token items)
    have hn2 : ∀ items, (applyUpdatePatterns w d.token items).2.filter
        (fun c => c == Call.getProf stok) = [] := fun items =>
      filter_eq_nil_of_all_mutating _ _ rfl (applyUpdatePatterns_trace_mut w d.token items)
    have hn3 : ∀ pm fm items, (applyCreateProfiles w d.token pm fm items).2.filter
        (fun c => c == Call.getProf stok) = [] := fun pm fm items =>
      filter_eq_nil_of_all_mutating _ _ rfl (applyCreateProfiles_trace_mut w d.token pm fm items)
    have hn4 : ∀ pm fm items, (applyUpdateProfiles w d.token pm fm items).2.filter
        (fun c => c == Call.getProf stok) = [] := fun pm fm items =>
      filter_eq_nil_of_all_mutating _ _ rfl (applyUpdateProfiles_trace_mut w d.token pm fm items)
    simp [syncDest, get_data_patterns, get_data_profiles, hsp, hdp, hdprof,
      List.filter_append, List.filter_cons, hm1, hm2, hm3, hm4, hn1, hn2, hn3, hn4,
      ha, hb, hc, he2, hf, hg]

theorem syncLoop_src_listing (w : World) (stok : String) (sp sprof : List Obj)
    (dry : Bool) (hok : ∀ c, ∃ l, w.fetch c = .ok l) :
    ∀ sel : List Dest, (∀ d ∈ sel, d.token ≠ stok) →
      (((syncLoop w stok sp sprof dry sel).2.filter
          (fun c => c == Call.getPat stok)).length = sel.length ∧
       ((syncLoop w stok sp sprof dry sel).2.filter
          (fun c => c == Call.getProf stok)).length = 0) := by
  intro sel
  induction sel with
  | nil => intro _; simp [syncLoop]
  | cons d ds ih =>
    intro htok
    have hd := syncDest_src_listing w stok sp sprof dry d hok
      (htok d (List.mem_cons_self _ _))
    have ihd := ih (fun x hx => htok x (List.mem_cons_of_mem _ hx))
    simp only [syncLoop, List.filter_append, List.length_append, List.length_cons]
    rw [hd.1, hd.2, ihd.1, ihd.2]
    omega

/-! ## Claim theorems -/

/-- C2: for every entity `e`, `_normalize_pattern(e)` contains none of the 8
reserved metadata keys, every entry it has comes verbatim from `e`, every
non-metadata entry of `e` (nested structure included, since values are kept
untouched) is preserved, and lookups of non-metadata keys are unchanged. -/
theorem c2_normalize_removes_metadata (e : Obj) :
    (∀ kv ∈ normalize_pattern e, kv.1 ∉ METADATA_FIELDS) ∧
    (∀ kv ∈ normalize_pattern e, kv ∈ e) ∧
    (∀ kv ∈ e, kv.1 ∉ METADATA_FIELDS → kv ∈ normalize_pattern e) ∧
    (∀ k, k ∉ METADATA_FIELDS → pyGet (normalize_pattern e) k = pyGet e k) := by
  refine ⟨fun kv h => not_metadata_of_mem_normalize h,
    fun kv h => mem_of_mem_normalize h, fun kv h hk => ?_, fun k hk => pyGet_normalize hk⟩
  refine List.mem_filter.mpr ⟨h, ?_⟩
  have hc : METADATA_FIELDS.contains kv.1 = false := by
    cases hc : METADATA_FIELDS.contains kv.1
    · rfl
    · exact absurd (contains_iff_mem.mp hc) hk
  simp only [hc, Bool.not_false]

/-- Witness for C2 at a concrete entity. -/
theorem c2_normalize_removes_metadata_witness :
    pyGet (normalize_pattern
      [("id", Val.vstr "i"), ("name", Val.vstr "A"), ("version", Val.vint 3)]) "name" =
    pyGet [("id", Val.vstr "i"), ("name", Val.vstr "A"), ("version", Val.vint 3)] "name" :=
  (c2_normalize_removes_metadata _).2.2.2 "name" (by decide)

/-- C4: both reference-rewriting calls are non-mutating — after the call the
caller's argument object is structurally identical to its value before the
call, the result being built on the deep copy taken at function entry
(sync.py lines 152 and 241). -/
theorem c4_remap_calls_preserve_input (p : Obj) (pm fm : List (Val × Val)) :
    (remap_pattern_ids_call p pm).2 = p ∧ (remap_profile_ids_call p fm).2 = p :=
  ⟨rfl, rfl⟩

/-- C5: `_remap_profile_ids` rewrites, for each `multi_profile` detection
rule, `multi_profile.data_profile_ids` element-wise via
`profileMap.get(id, id)` — mapped ids replaced, unmapped ids passed through —
leaves detection rules of any other `rule_type` unchanged, and maps this
rewrite over the profile's `detection_rules` list, all other members
untouched. -/
theorem c5_remap_profile_refs :
    (∀ (m : List (Val × Val)) (ids : List Val) (mpRest rest : Obj),
       remapProfileDetRule m (multiProfileRule ids mpRest rest) =
         multiProfileRule (ids.map fun i => (lookupPairs m i).getD i) mpRest rest) ∧
    (∀ (m : List (Val × Val)) (es : Obj),
       pyGet es "rule_type" ≠ .vstr "multi_profile" →
       remapProfileDetRule m (.vdict es) = .vdict es) ∧
    (∀ (m : List (Val × Val)) (drs : List Val) (rest : Obj),
       remap_profile_ids (("detection_rules", .vlist drs) :: rest) m =
         ("detection_rules", .vlist (drs.map (remapProfileDetRule m))) :: rest) := by
  refine ⟨fun m ids mpRest rest => ?_, fun m es h => ?_, fun m drs rest => ?_⟩
  · cases ids with
    | nil =>
      simp [remapProfileDetRule, multiProfileRule, pyGet, lookupPairs, List.find?, setKey,
        upsert, Val.truthy]
    | cons i0 ids =>
      simp [remapProfileDetRule, multiProfileRule, pyGet, lookupPairs, List.find?, setKey,
        upsert, Val.truthy]
  · have hb : (pyGet es "rule_type" == Val.vstr "multi_profile") = false := by
      simp [beq_eq_false_iff_ne, h]
    simp [remapProfileDetRule, hb]
  · cases drs with
    | nil =>
      simp [remap_profile_ids, pyGet, lookupPairs, List.find?, setKey, upsert, Val.truthy]
    | cons d ds =>
      simp [remap_profile_ids, pyGet, lookupPairs, List.find?, setKey, upsert, Val.truthy]

/-- Witness for C5 at a concrete non-`multi_profile` rule. -/
theorem c5_remap_profile_refs_witness :
    pyGet [("rule_type", Val.vstr "simple")] "rule_type" ≠ Val.vstr "multi_profile" ∧
    remapProfileDetRule [(Val.vint 1, Val.vint 10)]
      (.vdict [("rule_type", Val.vstr "simple")]) = .vdict [("rule_type", Val.vstr "simple")] :=
  ⟨by decide, c5_remap_profile_refs.2.1 [(Val.vint 1, Val.vint 10)]
    [("rule_type", Val.vstr "simple")] (by decide)⟩

/-- C3: `_remap_pattern_ids` (with `_remap_expression_tree`) rewrites, for an
expression tree of arbitrary nesting depth, the id of every node whose
`rule_item.id` is a key of the pattern map to the mapped value, and likewise
every `advance_data_patterns_rules[].conditions[].rule_items[].id`; ids absent
from the map are left unchanged (`get(id, id)` semantics in `mapETree` /
`mapARuleItem`) and tree shape, node order and all other members are
unchanged — the result is exactly the abstract profile with only its id
references rewritten. -/
theorem c3_remap_pattern_refs (m : List (Val × Val)) (P : PatProfile) :
    remap_pattern_ids (encodePatProfile P) m = encodePatProfile (mapPatProfile m P) := by
  obtain ⟨arules, drules, rest⟩ := P
  cases arules with
  | nil =>
    cases drules with
    | nil =>
      simp [remap_pattern_ids, encodePatProfile, mapPatProfile, pyGet, lookupPairs,
        List.find?, setKey, upsert, Val.truthy]
    | cons d ds =>
      simp [remap_pattern_ids, encodePatProfile, mapPatProfile, pyGet, lookupPairs,
        List.find?, setKey, upsert, Val.truthy, remapDetRule_encode]
  | cons a as =>
    cases drules with
    | nil =>
      simp [remap_pattern_ids, encodePatProfile, mapPatProfile, pyGet, lookupPairs,
        List.find?, setKey, upsert, Val.truthy, remapAdvRule_encode]
    | cons d ds =>
      simp [remap_pattern_ids, encodePatProfile, mapPatProfile, pyGet, lookupPairs,
        List.find?, setKey, upsert, Val.truthy, remapAdvRule_encode, remapDetRule_encode]


/-- C6: two entities with the same name whose normalized bodies differ only in
the order of elements inside list-valued fields, or only in the value of the
excluded `supported_confidence_levels` field at any depth (the `EquivMod`
relation), are classified `identical` by `compare_patterns`, not `to_update`
(and not `to_create`). -/
theorem c6_classify_modulo_order_and_volatile (s d : Obj)
    (hname : pyGet s "name" = pyGet d "name")
    (h : EquivMod (.vdict (normalize_pattern s)) (.vdict (normalize_pattern d))) :
    compare_patterns [s] [d] none none = ([], [], [s]) := by
  have hdd : deepDiffEmpty (.vdict (normalize_pattern s)) (.vdict (normalize_pattern d)) = true := by
    simp [deepDiffEmpty, equivMod_canon h]
  simp [compare_patterns, dictByName, classifyLoop, classifyOne, classifySrcNorm,
    lookupPairs, List.find?, upsert, hname, hdd]

/-- Witness for C6: the two entities share a name and differ exactly in the
order of a list-valued field and in the value of the excluded field. -/
theorem c6_classify_modulo_order_and_volatile_witness :
    compare_patterns
      [[("name", Val.vstr "A"), ("id", Val.vstr "x"),
        ("tags", Val.vlist [Val.vint 1, Val.vint 2]),
        ("supported_confidence_levels", Val.vlist [Val.vstr "high"])]]
      [[("name", Val.vstr "A"), ("id", Val.vstr "y"),
        ("tags", Val.vlist [Val.vint 2, Val.vint 1]),
        ("supported_confidence_levels", Val.vlist [Val.vstr "low"])]]
      none none =
    ([], [],
      [[("name", Val.vstr "A"), ("id", Val.vstr "x"),
        ("tags", Val.vlist [Val.vint 1, Val.vint 2]),
        ("supported_confidence_levels", Val.vlist [Val.vstr "high"])]]) := by
  apply c6_classify_modulo_order_and_volatile
  · decide
  · have hs : normalize_pattern
        [("name", Val.vstr "A"), ("id", Val.vstr "x"),
         ("tags", Val.vlist [Val.vint 1, Val.vint 2]),
         ("supported_confidence_levels", Val.vlist [Val.vstr "high"])] =
        [("name", Val.vstr "A"),
         ("tags", Val.vlist [Val.vint 1, Val.vint 2]),
         ("supported_confidence_levels", Val.vlist [Val.vstr "high"])] := by decide
    have hd : normalize_pattern
        [("name", Val.vstr "A"), ("id", Val.vstr "y"),
         ("tags", Val.vlist [Val.vint 2, Val.vint 1]),
         ("supported_confidence_levels", Val.vlist [Val.vstr "low"])] =
        [("name", Val.vstr "A"),
         ("tags", Val.vlist [Val.vint 2, Val.vint 1]),
         ("supported_confidence_levels", Val.vlist [Val.vstr "low"])] := by decide
    rw [hs, hd]
    apply EquivMod.dict
    · rfl
    · decide
    · intro q hq hne
      simp only [List.zip, List.zipWith, List.mem_cons, List.not_mem_nil, or_false] at hq
      rcases hq with hq | hq | hq
      · subst hq; exact EquivMod.refl _
      · subst hq
        exact EquivMod.list [Val.vint 1, Val.vint 2] [Val.vint 1, Val.vint 2]
          [Val.vint 2, Val.vint 1] rfl
          (fun p hp => by
            simp only [List.zip, List.zipWith, List.mem_cons, List.not_mem_nil, or_false] at hp
            rcases hp with hp | hp <;> (subst hp; exact EquivMod.refl _))
          (List.Perm.swap (Val.vint 2) (Val.vint 1) [])
      · subst hq
        exact absurd rfl hne

/-- C10: when the source list contains one or more entities named `n`
(in particular two or more), the three outputs of `compare_patterns` together
contain exactly one entry for that name, and it is the last source occurrence
(`lastWithName`) that is considered; when the destination list also contains
the name, the entity compared against is the last destination occurrence. -/
theorem c10_duplicate_name_collapse (src dst : List Obj) (pm fm : Option (List (Val × Val))) (n : Val)
    (hsrc : src.filter (fun p => pyGet p "name" == n) ≠ []) :
    ∃ s, lastWithName n src = some s ∧
      ((compare_patterns src dst pm fm).1.filter (fun p => pyGet p "name" == n)).length +
      ((compare_patterns src dst pm fm).2.1.filter (fun q => pyGet q.1 "name" == n)).length +
      ((compare_patterns src dst pm fm).2.2.filter (fun p => pyGet p "name" == n)).length = 1 ∧
      ((lastWithName n dst = none ∧
         (compare_patterns src dst pm fm).1.filter (fun p => pyGet p "name" == n) = [s]) ∨
       (∃ d, lastWithName n dst = some d ∧
         (compare_patterns src dst pm fm).1.filter (fun p => pyGet p "name" == n) = [] ∧
         ((compare_patterns src dst pm fm).2.1.filter (fun q => pyGet q.1 "name" == n)
             = [(s, d)] ∨
          (compare_patterns src dst pm fm).2.2.filter (fun p => pyGet p "name" == n)
             = [s]))) := by
  obtain ⟨s, hs⟩ := lastWithName_isSome hsrc
  refine ⟨s, hs, ?_⟩
  have hfilters := classifyLoop_filterName (dictByName dst) pm fm n (dictByName src)
    (dictByName_entry_name src) (dictByName_nodup_keys src)
  rw [dictByName_lookup src n, hs] at hfilters
  have hcp : compare_patterns src dst pm fm =
      classifyLoop (dictByName dst) pm fm (dictByName src) := rfl
  rw [hcp]
  have e1 := congrArg (fun t => t.1) hfilters
  have e2 := congrArg (fun t => t.2.1) hfilters
  have e3 := congrArg (fun t => t.2.2) hfilters
  simp only at e1 e2 e3
  cases hd : lastWithName n dst with
  | none =>
    have hl : lookupPairs (dictByName dst) n = none := by rw [dictByName_lookup, hd]
    have hone : classifyOne (dictByName dst) pm fm n s = ([s], [], []) := by
      unfold classifyOne
      rw [hl]
    rw [hone] at e1 e2 e3
    rw [e1, e2, e3]
    exact ⟨rfl, Or.inl ⟨rfl, rfl⟩⟩
  | some d =>
    have hl : lookupPairs (dictByName dst) n = some d := by rw [dictByName_lookup, hd]
    by_cases hdd : deepDiffEmpty (.vdict (classifySrcNorm pm fm s))
        (.vdict (normalize_pattern d)) = true
    · have hone : classifyOne (dictByName dst) pm fm n s = ([], [], [s]) := by
        unfold classifyOne
        rw [hl]
        simp [hdd]
      rw [hone] at e1 e2 e3
      rw [e1, e2, e3]
      exact ⟨rfl, Or.inr ⟨d, rfl, rfl, Or.inr rfl⟩⟩
    · have hddf : deepDiffEmpty (.vdict (classifySrcNorm pm fm s))
          (.vdict (normalize_pattern d)) = false := by
        simp only [Bool.not_eq_true] at hdd
        exact hdd
      have hone : classifyOne (dictByName dst) pm fm n s = ([], [(s, d)], []) := by
        unfold classifyOne
        rw [hl]
        simp [hddf]
      rw [hone] at e1 e2 e3
      rw [e1, e2, e3]
      exact ⟨rfl, Or.inr ⟨d, rfl, rfl, Or.inl rfl⟩⟩


/-- Witness for C10: two source entities named `A` against an empty
destination — exactly one `to_create` entry, the last occurrence. -/
theorem c10_duplicate_name_collapse_witness :
    ([[("name", Val.vstr "A"), ("id", Val.vstr "1")],
      [("name", Val.vstr "A"), ("id", Val.vstr "2")]].filter
        (fun p => pyGet p "name" == Val.vstr "A") ≠ []) ∧
    (∃ s, lastWithName (Val.vstr "A")
        [[("name", Val.vstr "A"), ("id", Val.vstr "1")],
         [("name", Val.vstr "A"), ("id", Val.vstr "2")]] = some s ∧
      ((compare_patterns [[("name", Val.vstr "A"), ("id", Val.vstr "1")],
         [("name", Val.vstr "A"), ("id", Val.vstr "2")]] [] none none).1.filter
           (fun p => pyGet p "name" == Val.vstr "A")).length +
      ((compare_patterns [[("name", Val.vstr "A"), ("id", Val.vstr "1")],
         [("name", Val.vstr "A"), ("id", Val.vstr "2")]] [] none none).2.1.filter
           (fun q => pyGet q.1 "name" == Val.vstr "A")).length +
      ((compare_patterns [[("name", Val.vstr "A"), ("id", Val.vstr "1")],
         [("name", Val.vstr "A"), ("id", Val.vstr "2")]] [] none none).2.2.filter
           (fun p => pyGet p "name" == Val.vstr "A")).length = 1 ∧
      ((lastWithName (Val.vstr "A") [] = none ∧
         (compare_patterns [[("name", Val.vstr "A"), ("id", Val.vstr "1")],
           [("name", Val.vstr "A"), ("id", Val.vstr "2")]] [] none none).1.filter
             (fun p => pyGet p "name" == Val.vstr "A") = [s]) ∨
       (∃ d, lastWithName (Val.vstr "A") [] = some d ∧
         (compare_patterns [[("name", Val.vstr "A"), ("id", Val.vstr "1")],
           [("name", Val.vstr "A"), ("id", Val.vstr "2")]] [] none none).1.filter
             (fun p => pyGet p "name" == Val.vstr "A") = [] ∧
         ((compare_patterns [[("name", Val.vstr "A"), ("id", Val.vstr "1")],
            [("name", Val.vstr "A"), ("id", Val.vstr "2")]] [] none none).2.1.filter
              (fun q => pyGet q.1 "name" == Val.vstr "A") = [(s, d)] ∨
          (compare_patterns [[("name", Val.vstr "A"), ("id", Val.vstr "1")],
            [("name", Val.vstr "A"), ("id", Val.vstr "2")]] [] none none).2.2.filter
              (fun p => pyGet p "name" == Val.vstr "A") = [s])))) :=
  ⟨by decide, c10_duplicate_name_collapse
    [[("name", Val.vstr "A"), ("id", Val.vstr "1")],
     [("name", Val.vstr "A"), ("id", Val.vstr "2")]] [] none none (Val.vstr "A") (by decide)⟩

/-- C7: per-item failure isolation in all four apply loops. For every plan,
the created/updated list and the errors list are pointwise functions of each
item's own remote call — a failing item is recorded as its `(name, message)`
pair in the errors list while every other item still lands in exactly one of
the two lists (the lengths sum to the plan length) — and the call trace shows
every item of the plan attempted, in plan order, with no abort and no
rollback. -/
theorem c7_per_item_failure_isolation (w : World) (token : String)
    (pm : List (Val × Val)) (fm : Option (List (Val × Val))) :
    (∀ items : List Obj,
      (applyCreatePatterns w token items).1.1 =
        items.filterMap (fun p =>
          match w.push (.createPat token (normalize_pattern p)) with
          | .ok _ => some (pyGet p "name")
          | .error _ => none) ∧
      (applyCreatePatterns w token items).1.2 =
        items.filterMap (fun p =>
          match w.push (.createPat token (normalize_pattern p)) with
          | .ok _ => none
          | .error m => some (pyGet p "name", m)) ∧
      (applyCreatePatterns w token items).1.1.length +
        (applyCreatePatterns w token items).1.2.length = items.length ∧
      (applyCreatePatterns w token items).2 =
        items.map (fun p => .createPat token (normalize_pattern p))) ∧
    (∀ items : List (Obj × Obj),
      (applyUpdatePatterns w token items).1.1 =
        items.filterMap (fun q =>
          match w.push (.updatePat token (pyGet q.2 "id") (normalize_pattern q.1)) with
          | .ok _ => some (pyGet q.1 "name")
          | .error _ => none) ∧
      (applyUpdatePatterns w token items).1.2 =
        items.filterMap (fun q =>
          match w.push (.updatePat token (pyGet q.2 "id") (normalize_pattern q.1)) with
          | .ok _ => none
          | .error m => some (pyGet q.1 "name", m)) ∧
      (applyUpdatePatterns w token items).1.1.length +
        (applyUpdatePatterns w token items).1.2.length = items.length ∧
      (applyUpdatePatterns w token items).2 =
        items.map (fun q => .updatePat token (pyGet q.2 "id") (normalize_pattern q.1))) ∧
    (∀ items : List Obj,
      (applyCreateProfiles w token pm fm items).1.1 =
        items.filterMap (fun p =>
          match w.push (.createProf token (profile_push_body pm fm p)) with
          | .ok _ => some (pyGet p "name")
          | .error _ => none) ∧
      (applyCreateProfiles w token pm fm items).1.2 =
        items.filterMap (fun p =>
          match w.push (.createProf token (profile_push_body pm fm p)) with
          | .ok _ => none
          | .error m => some (pyGet p "name", m)) ∧
      (applyCreateProfiles w token pm fm items).1.1.length +
        (applyCreateProfiles w token pm fm items).1.2.length = items.length ∧
      (applyCreateProfiles w token pm fm items).2 =
        items.map (fun p => .createProf token (profile_push_body pm fm p))) ∧
    (∀ items : List (Obj × Obj),
      (applyUpdateProfiles w token pm fm items).1.1 =
        items.filterMap (fun q =>
          match w.push (.updateProf token (pyGet q.2 "id") (profile_push_body pm fm q.1)) with
          | .ok _ => some (pyGet q.1 "name")
          | .error _ => none) ∧
      (applyUpdateProfiles w token pm fm items).1.2 =
        items.filterMap (fun q =>
          match w.push (.updateProf token (pyGet q.2 "id") (profile_push_body pm fm q.1)) with
          | .ok _ => none
          | .error m => some (pyGet q.1 "name", m)) ∧
      (applyUpdateProfiles w token pm fm items).1.1.length +
        (applyUpdateProfiles w token pm fm items).1.2.length = items.length ∧
      (applyUpdateProfiles w token pm fm items).2 =
        items.map (fun q => .updateProf token (pyGet q.2 "id") (profile_push_body pm fm q.1))) :=
  ⟨applyCreatePatterns_spec w token, applyUpdatePatterns_spec w token,
   applyCreateProfiles_spec w token pm fm, applyUpdateProfiles_spec w token pm fm⟩

/-- C1: in a dry run, every call in the trace is a listing call — zero create
and zero update calls against any destination, in both the patterns and the
profiles phase — while for every selected destination whose fetches succeed
the recorded report entry still carries the computed
to-create/to-update/identical counts for both entity kinds (and empty
created/updated/errors lists). -/
theorem c1_dry_run_no_writes (w : World) (stok sname : String) (dests : List Dest)
    (tt : Option (List String)) :
    ((sync w stok sname dests true tt).2.all (fun c => !isMutatingCall c) = true) ∧
    (∀ (sel : List Dest) (spRaw sprofRaw : List Obj),
      selectTenants dests tt = some sel →
      w.fetch (.getPat stok) = .ok spRaw →
      w.fetch (.getProf stok) = .ok sprofRaw →
      (sel.map Dest.name).Nodup →
      ∀ d ∈ sel, ∀ dpRaw dprofRaw : List Obj,
        w.fetch (.getPat d.token) = .ok dpRaw →
        w.fetch (.getProf d.token) = .ok dprofRaw →
        ∃ g, (sync w stok sname dests true tt).1 = .report g ∧
          lookupPairs g.tenants d.name = some (.ok
            ⟨⟨(compare_patterns (customPatterns spRaw) (customPatterns dpRaw)
                 none none).1.length,
              (compare_patterns (customPatterns spRaw) (customPatterns dpRaw)
                 none none).2.1.length,
              (compare_patterns (customPatterns spRaw) (customPatterns dpRaw)
                 none none).2.2.length,
              [], [], []⟩,
             ⟨(compare_patterns (customProfiles sprofRaw) (customProfiles dprofRaw)
                 (some (build_id_mapping spRaw dpRaw))
                 (some (build_id_mapping (customProfiles sprofRaw)
                   (customProfiles dprofRaw)))).1.length,
              (compare_patterns (customProfiles sprofRaw) (customProfiles dprofRaw)
                 (some (build_id_mapping spRaw dpRaw))
                 (some (build_id_mapping (customProfiles sprofRaw)
                   (customProfiles dprofRaw)))).2.1.length,
              (compare_patterns (customProfiles sprofRaw) (customProfiles dprofRaw)
                 (some (build_id_mapping spRaw dpRaw))
                 (some (build_id_mapping (customProfiles sprofRaw)
                   (customProfiles dprofRaw)))).2.2.length,
              [], [], []⟩⟩)) := by
  constructor
  · cases h1 : w.fetch (.getPat stok) with
    | error m => simp [sync, get_data_patterns, h1, isMutatingCall]
    | ok spRaw =>
      cases h2 : w.fetch (.getProf stok) with
      | error m => simp [sync, get_data_patterns, get_data_profiles, h1, h2, isMutatingCall]
      | ok sprofRaw =>
        cases h3 : selectTenants dests tt with
        | none =>
          simp [sync, get_data_patterns, get_data_profiles, h1, h2, h3, isMutatingCall]
        | some sel =>
          simp only [sync, get_data_patterns, get_data_profiles, h1, h2, h3]
          rw [syncLoop_trace]
          simp only [List.all_append, Bool.and_eq_true, List.all_eq_true]
          refine ⟨⟨by simp [isMutatingCall], by simp [isMutatingCall]⟩, ?_⟩
          intro c hc
          rcases List.mem_flatMap.mp hc with ⟨d, hd, hcd⟩
          exact List.all_eq_true.mp (syncDest_dry_trace w stok _ _ d) c hcd
  · intro sel spRaw sprofRaw hsel hsp hsprof hn d hd dpRaw dprofRaw hdp hdprof
    refine ⟨_, sync_report_tenants w stok sname dests true tt sel spRaw sprofRaw
      hsp hsprof hsel, ?_⟩
    rw [sync_tenants_lookup _ sel hn d hd]
    rw [syncDest_dry w stok _ _ d spRaw dpRaw dprofRaw hsp hdp hdprof]

/-- Witness for C1 at a concrete store and one destination. -/
theorem c1_dry_run_no_writes_witness :
    ∃ g, (sync ⟨fun _ => .ok [], fun _ => .ok []⟩ "s" "Src"
        [⟨"A", "a"⟩] true none).1 = .report g ∧
      lookupPairs g.tenants "A" = some (.ok
        ⟨⟨(compare_patterns (customPatterns []) (customPatterns []) none none).1.length,
          (compare_patterns (customPatterns []) (customPatterns []) none none).2.1.length,
          (compare_patterns (customPatterns []) (customPatterns []) none none).2.2.length,
          [], [], []⟩,
         ⟨(compare_patterns (customProfiles []) (customProfiles [])
             (some (build_id_mapping [] []))
             (some (build_id_mapping (customProfiles []) (customProfiles [])))).1.length,
          (compare_patterns (customProfiles []) (customProfiles [])
             (some (build_id_mapping [] []))
             (some (build_id_mapping (customProfiles []) (customProfiles [])))).2.1.length,
          (compare_patterns (customProfiles []) (customProfiles [])
             (some (build_id_mapping [] []))
             (some (build_id_mapping (customProfiles []) (customProfiles [])))).2.2.length,
          [], [], []⟩⟩) :=
  (c1_dry_run_no_writes ⟨fun _ => .ok [], fun _ => .ok []⟩ "s" "Src"
    [⟨"A", "a"⟩] none).2 [⟨"A", "a"⟩] [] [] rfl rfl rfl (by decide)
    ⟨"A", "a"⟩ (by decide) [] [] rfl rfl

/-- C8: per-destination failure isolation. Whenever the source fetches
succeed and the target selection is non-empty, the run returns a report with
one entry per selected destination — each entry a function of the store and
that destination alone, so one destination's failure cannot affect another's
entry, and the report is complete even if every destination failed — and a
destination whose pattern fetch raises is recorded as an error entry. -/
theorem c8_per_destination_isolation (w : World) (stok sname : String) (dests : List Dest) (dry : Bool)
    (tt : Option (List String)) (sel : List Dest) (spRaw sprofRaw : List Obj)
    (hsp : w.fetch (.getPat stok) = .ok spRaw)
    (hsprof : w.fetch (.getProf stok) = .ok sprofRaw)
    (hsel : selectTenants dests tt = some sel)
    (hn : (sel.map Dest.name).Nodup) :
    ∃ g, (sync w stok sname dests dry tt).1 = .report g ∧
      (∀ d ∈ sel, lookupPairs g.tenants d.name =
        some (syncDest w stok (customPatterns spRaw) (customProfiles sprofRaw) dry d).1) ∧
      (∀ (d : Dest) (m : String), w.fetch (.getPat d.token) = .error m →
        (syncDest w stok (customPatterns spRaw) (customProfiles sprofRaw) dry d).1 =
          .fail m) := by
  refine ⟨_, sync_report_tenants w stok sname dests dry tt sel spRaw sprofRaw hsp hsprof hsel,
    ?_, ?_⟩
  · intro d hd
    exact sync_tenants_lookup _ sel hn d hd
  · intro d m hm
    exact syncDest_fetch_error w stok _ _ dry d m hm

/-- Witness for C8: destination `B` fails its fetch, `A` succeeds; both get
entries. -/
theorem c8_per_destination_isolation_witness :
    ∃ g, (sync ⟨fun c => if c = .getPat "b" then .error "boom" else .ok [],
        fun _ => .ok []⟩ "s" "Src" [⟨"A", "a"⟩, ⟨"B", "b"⟩] true none).1 = .report g ∧
      (∀ d ∈ [(⟨"A", "a"⟩ : Dest), ⟨"B", "b"⟩], lookupPairs g.tenants d.name =
        some (syncDest ⟨fun c => if c = .getPat "b" then .error "boom" else .ok [],
          fun _ => .ok []⟩ "s" (customPatterns []) (customProfiles []) true d).1) ∧
      (∀ (d : Dest) (m : String),
        (⟨fun c => if c = .getPat "b" then .error "boom" else .ok [],
          fun _ => .ok []⟩ : World).fetch (.getPat d.token) = .error m →
        (syncDest ⟨fun c => if c = .getPat "b" then .error "boom" else .ok [],
          fun _ => .ok []⟩ "s" (customPatterns []) (customProfiles []) true d).1 =
          .fail m) :=
  c8_per_destination_isolation
    ⟨fun c => if c = .getPat "b" then .error "boom" else .ok [], fun _ => .ok []⟩
    "s" "Src" [⟨"A", "a"⟩, ⟨"B", "b"⟩] true none [⟨"A", "a"⟩, ⟨"B", "b"⟩] [] []
    rfl rfl rfl (by decide)

/-- Counterexample to C9 as stated: a concrete dry run over two destinations
in which the source's pattern list is fetched three times, not once — the
trace's source-pattern listings are not the single pre-loop call the claim
asserts (one extra full listing happens inside each destination's
processing, sync.py line 563). -/
theorem c9_counterexample :
    (((sync ⟨fun _ => .ok [], fun _ => .ok []⟩ "s" "Src"
        [⟨"A", "a"⟩, ⟨"B", "b"⟩] true none).2.filter
          (fun c => c == Call.getPat "s")).length = 3) ∧
    ((sync ⟨fun _ => .ok [], fun _ => .ok []⟩ "s" "Src"
        [⟨"A", "a"⟩, ⟨"B", "b"⟩] true none).2.filter
          (fun c => c == Call.getPat "s")) ≠
      [Call.getPat "s"] := by
  constructor
  · decide
  · decide

/-- C9 (amended): in any run — dry or execute — in which every fetch
succeeds and no destination shares the source's token, the source's pattern
list is fetched
`1 + number of selected destinations` times — once custom-only before the
per-destination loop and once more (full set, for the pattern identity map)
inside each destination's processing — and the source's profile list exactly
once. This contradicts the claim's "once per entity kind, none inside the
loop"; see `c9_counterexample`. -/
theorem c9_source_listing_per_destination (w : World) (stok sname : String) (dests : List Dest)
    (dry : Bool) (tt : Option (List String)) (sel : List Dest)
    (hok : ∀ c, ∃ l, w.fetch c = .ok l)
    (hsel : selectTenants dests tt = some sel)
    (htok : ∀ d ∈ sel, d.token ≠ stok) :
    ((sync w stok sname dests dry tt).2.filter
        (fun c => c == Call.getPat stok)).length = 1 + sel.length ∧
    ((sync w stok sname dests dry tt).2.filter
        (fun c => c == Call.getProf stok)).length = 1 := by
  obtain ⟨spRaw, hsp⟩ := hok (.getPat stok)
  obtain ⟨sprofRaw, hsprof⟩ := hok (.getProf stok)
  have hloop := syncLoop_src_listing w stok (customPatterns spRaw)
    (customProfiles sprofRaw) dry hok sel htok
  simp only [sync, get_data_patterns, get_data_profiles, hsp, hsprof, hsel, if_true]
  simp only [List.filter_append, List.length_append]
  rw [hloop.1, hloop.2]
  have hb : (Call.getPat stok == Call.getPat stok) = true := by simp
  have hf : (Call.getPat stok == Call.getProf stok) = false := by
    rw [beq_eq_false_iff_ne]
    simp
  have hc : (Call.getProf stok == Call.getPat stok) = false := by
    rw [beq_eq_false_iff_ne]
    simp
  have hg : (Call.getProf stok == Call.getProf stok) = true := by simp
  simp [List.filter_cons, hb, hf, hc, hg]

/-- Witness for the amended C9 at a concrete store, two destinations, in
execute mode. -/
theorem c9_source_listing_per_destination_witness :
    ((sync ⟨fun _ => .ok [], fun _ => .ok []⟩ "s" "Src"
        [⟨"A", "a"⟩, ⟨"B", "b"⟩] false none).2.filter
          (fun c => c == Call.getPat "s")).length =
      1 + ([(⟨"A", "a"⟩ : Dest), ⟨"B", "b"⟩]).length ∧
    ((sync ⟨fun _ => .ok [], fun _ => .ok []⟩ "s" "Src"
        [⟨"A", "a"⟩, ⟨"B", "b"⟩] false none).2.filter
          (fun c => c == Call.getProf "s")).length = 1 :=
  c9_source_listing_per_destination ⟨fun _ => .ok [], fun _ => .ok []⟩ "s" "Src"
    [⟨"A", "a"⟩, ⟨"B", "b"⟩] false none [⟨"A", "a"⟩, ⟨"B", "b"⟩]
    (fun c => ⟨[], rfl⟩) rfl (by decide)

end DlpSync
